import Mathlib

/-!
# Verification development for the dibbler Address Manager (src/AddrMgr/AddrMgr.cpp)

Shallow embedding of the address-manager lease database.  Translation
conventions:

* `SPtr<T>` (nullable smart pointer) becomes `Option T`;
* the `TContainer` cursor iteration (`first()` / `get()` loops with `break`)
  becomes `List.find?`, and an in-place mutation of the element the cursor
  stopped on becomes `updateFirst` (replace the first element matching the
  predicate);
* `ClntsLst.append` / `addPD` / `addPrefix` on containers become list append;
* machine integers (`unsigned long`, `uint32_t`, `uint64_t`) become `Nat`;
  the only operation where overflow is observable is the pre-increment of the
  64-bit replay-detection counter, modelled with an explicit `% 2 ^ 64`;
* wall-clock reads (`time(NULL)`) become an explicit `now : Nat` argument;
* a DUID is an opaque byte sequence (`TDUID::operator==` compares content),
  modelled as `List Nat`; a 16-byte IPv6 address value (`TIPv6Addr::operator==`
  compares the bytes) is abstracted to `Nat`, which preserves exactly the
  equality tests the manager performs.

Helper classes (`TAddrClient`, `TAddrIA`, `TAddrAddr`, `TAddrPrefix`,
container internals) are declared elsewhere in the repository and are not
under `src/`; their definitions below are marked `Modelled from the spec:`
and follow the specification text.
-/

namespace AddrMgrModel

/-- A DUID: opaque byte sequence, equality by content. -/
abbrev DUID := List Nat

/-- Abstraction of the 16-byte IPv6 address value; only equality of the byte
content is used by the manager, which structural equality of `Nat` models. -/
abbrev Ip6 := Nat

/-- Assignment kind tag (`IATYPE_IA` / `IATYPE_TA` / `IATYPE_PD`). -/
inductive IAType where
  | ia
  | ta
  | pd
deriving DecidableEq, Repr

/-- Assignment lifecycle state (`STATE_NOTCONFIGURED`, `STATE_INPROCESS`,
`STATE_CONFIGURED`, `STATE_CONFIRMME`, `STATE_TENTATIVECHECK`... the spec
state set, section 4.4). -/
inductive IAState where
  | notConfigured
  | inProcess
  | configured
  | confirmMe
  | expired
deriving DecidableEq, Repr

/-- Lease tentative status (`ADDRSTATUS_YES` / `ADDRSTATUS_NO` /
`ADDRSTATUS_UNKNOWN`). -/
inductive AddrStatus where
  | yes
  | no
  | unknown
deriving DecidableEq, Repr

/-- A lease.  `TAddrAddr` holds an address with preferred/valid lifetimes,
an on-link length, the acquisition timestamp and the tentative flag;
`TAddrPrefix` carries exactly the same payload with `len` meaning the
delegated length, so both share this structure. -/
structure TAddrAddr where
  addr : Ip6
  pref : Nat
  valid : Nat
  len : Nat
  timestamp : Nat
  tentative : AddrStatus
deriving DecidableEq, Repr

/-- `TAddrPrefix` has the same fields as `TAddrAddr` (see `TAddrAddr`). -/
abbrev TAddrPrefix := TAddrAddr

/-- An assignment (IA / TA / PD): shared metadata plus the two lease lists
(`addrs` populated for IA, `prefixes` for PD).  The `duid` field is the
informational back-reference to the owning client. -/
structure TAddrIA where
  ifacename : String
  ifindex : Nat
  iatype : IAType
  duid : DUID
  T1 : Nat
  T2 : Nat
  iaid : Nat
  state : IAState
  timestamp : Nat
  addrs : List TAddrAddr
  prefixes : List TAddrPrefix
deriving DecidableEq, Repr

/-- A client record: DUID plus the three ordered assignment lists. -/
structure TAddrClient where
  duid : DUID
  ias : List TAddrIA
  tas : List TAddrIA
  pds : List TAddrIA
deriving DecidableEq, Repr

/-- The manager: ordered client list, 64-bit replay-detection counter and the
delete-empty-client policy flag. -/
structure TAddrMgr where
  clients : List TAddrClient
  replayDetectionValue : Nat
  deleteEmptyClient : Bool
deriving DecidableEq, Repr

/-! ## List helpers: the C++ cursor loops mutate the element they stop on. -/

/-- Replace the first element satisfying `p` by its image under `f`
(in-place mutation through the stopped cursor). -/
def updateFirst (p : α → Bool) (f : α → α) : List α → List α
  | [] => []
  | x :: xs => if p x then f x :: xs else x :: updateFirst p f xs

/-- Delete the first element satisfying `p` (the container `del` after a
cursor scan). -/
def eraseFirst (p : α → Bool) : List α → List α
  | [] => []
  | x :: xs => if p x then xs else x :: eraseFirst p xs

theorem find?_cons_eq (p : α → Bool) (x : α) (xs : List α) :
    (x :: xs).find? p = if p x then some x else xs.find? p := by
  by_cases hx : p x = true
  · simp [List.find?_cons_of_pos _ hx, hx]
  · simp only [Bool.not_eq_true] at hx
    simp [List.find?_cons_of_neg, hx]

theorem updateFirst_of_find?_none (p : α → Bool) (f : α → α) :
    ∀ l : List α, l.find? p = none → updateFirst p f l = l := by
  intro l h
  induction l with
  | nil => rfl
  | cons x xs ih =>
    rw [find?_cons_eq] at h
    by_cases hx : p x = true
    · rw [if_pos hx] at h
      exact absurd h (by simp)
    · rw [if_neg hx] at h
      simp only [Bool.not_eq_true] at hx
      simp [updateFirst, hx, ih h]

theorem find?_updateFirst (p : α → Bool) (f : α → α)
    (hp : ∀ x, p x = true → p (f x) = true) :
    ∀ l : List α, (updateFirst p f l).find? p = (l.find? p).map f := by
  intro l
  induction l with
  | nil => rfl
  | cons x xs ih =>
    by_cases hx : p x = true
    · simp [updateFirst, hx, find?_cons_eq, hp x hx]
    · simp only [Bool.not_eq_true] at hx
      simp [updateFirst, hx, find?_cons_eq, ih]

theorem updateFirst_id (p : α → Bool) (f : α → α) :
    ∀ l : List α, (∀ a, l.find? p = some a → f a = a) → updateFirst p f l = l := by
  intro l
  induction l with
  | nil => intro _; rfl
  | cons x xs ih =>
    intro h
    by_cases hx : p x = true
    · have : f x = x := h x (by simp [find?_cons_eq, hx])
      simp [updateFirst, hx, this]
    · simp only [Bool.not_eq_true] at hx
      have : updateFirst p f xs = xs := by
        apply ih
        intro a ha
        exact h a (by simp [find?_cons_eq, hx, ha])
      simp [updateFirst, hx, this]

theorem find?_append_of_none (p : α → Bool) (l : List α) (x : α)
    (h : l.find? p = none) : (l ++ [x]).find? p = if p x then some x else none := by
  induction l with
  | nil => simp [find?_cons_eq]
  | cons y ys ih =>
    rw [find?_cons_eq] at h
    by_cases hy : p y = true
    · rw [if_pos hy] at h
      exact absurd h (by simp)
    · rw [if_neg hy] at h
      simp only [Bool.not_eq_true] at hy
      rw [List.cons_append, find?_cons_eq, if_neg (by simp [hy]), ih h]

theorem updateFirst_append_of_none (p : α → Bool) (f : α → α) (l : List α) (x : α)
    (h : l.find? p = none) (hx : p x = true) :
    updateFirst p f (l ++ [x]) = l ++ [f x] := by
  induction l with
  | nil => simp [updateFirst, hx]
  | cons y ys ih =>
    rw [find?_cons_eq] at h
    by_cases hy : p y = true
    · rw [if_pos hy] at h
      exact absurd h (by simp)
    · rw [if_neg hy] at h
      simp only [Bool.not_eq_true] at hy
      simp [List.cons_append, updateFirst, hy, ih h]

/-! ## Constructors for the entity classes that are not under src/ -/

/-- Modelled from the spec: the `TAddrAddr` / `TAddrPrefix` constructor
(AddrAddr.cpp / AddrPrefix.cpp are not under src/): a fresh lease stores the
address, lifetimes and length, stamps the acquisition time with the current
time, and starts with tentative status unknown (spec sections 3 and 4.4). -/
def mkLease (a : Ip6) (pref valid len now : Nat) : TAddrAddr :=
  { addr := a, pref := pref, valid := valid, len := len, timestamp := now,
    tentative := .unknown }

/-- Modelled from the spec: the `TAddrIA` constructor (AddrIA.cpp is not under
src/): records interface, type, owning DUID, timers and IAID, stamps the
current time, and starts in the pre-configuration state `not-configured`
(first state of the spec state set, section 3); AddrMgr.cpp itself moves the
state to `configured` (mutation API) or `confirm-me` (snapshot reader, PD
branch) by explicit `setState` calls after construction.  The client-address
argument of the C++ constructor is diagnostic only and is not modelled. -/
def mkIA (ifn : String) (ifi : Nat) (ty : IAType) (d : DUID) (t1 t2 iaid now : Nat) :
    TAddrIA :=
  { ifacename := ifn, ifindex := ifi, iatype := ty, duid := d, T1 := t1, T2 := t2,
    iaid := iaid, state := .notConfigured, timestamp := now, addrs := [],
    prefixes := [] }

/-- Modelled from the spec: the `TAddrClient` constructor (AddrClient.cpp is
not under src/): a fresh client has the DUID and three empty assignment
lists. -/
def mkClient (d : DUID) : TAddrClient :=
  { duid := d, ias := [], tas := [], pds := [] }

/-! ## Lookup helpers: first/get cursor scans with a break on the match -/

/-- `TAddrMgr::getClient(SPtr<TDUID>)` / the client scan at the top of
`addPrefix`, `updatePrefix` and `delPrefix`: first client whose DUID content
equals `d`. -/
def findClient (m : TAddrMgr) (d : DUID) : Option TAddrClient :=
  m.clients.find? (fun c => c.duid == d)

/-- The PD scan (`firstPD` / `getPD` with a break on the IAID). -/
def findPD (c : TAddrClient) (iaid : Nat) : Option TAddrIA :=
  c.pds.find? (fun pd => pd.iaid == iaid)

/-- The prefix scan inside a PD (`firstPrefix` / `getPrefix` with a break on
equal address content). -/
def findLease (pd : TAddrIA) (a : Ip6) : Option TAddrPrefix :=
  pd.prefixes.find? (fun pr => pr.addr == a)

/-! ## Mutation API -/

/-- Body of `TAddrMgr::addPrefix` (client overload, AddrMgr.cpp lines 363-423)
once both null checks have passed: find the PD with this IAID (creating one in
state `configured` when absent), overwrite its T1/T2, refuse a duplicate
prefix, otherwise append the lease and re-set the PD owner DUID. -/
def addPrefixCore (c : TAddrClient) (d : DUID) (ifn : String) (ifi iaid t1 t2 : Nat)
    (a : Ip6) (pref valid len now : Nat) : Bool × TAddrClient :=
  let c1 := if (findPD c iaid).isSome then c
            else { c with pds := c.pds ++
              [{ mkIA ifn ifi .pd d t1 t2 iaid now with state := .configured }] }
  let c2 := { c1 with
    pds := updateFirst (fun pd => pd.iaid == iaid)
      (fun pd => { pd with T1 := t1, T2 := t2 }) c1.pds }
  match findPD c2 iaid with
  | none => (false, c2)  -- dead branch: c1 always holds a PD with this IAID
  | some pd =>
    if (findLease pd a).isSome then
      (false, c2)
    else
      (true, { c2 with
        pds := updateFirst (fun pd => pd.iaid == iaid)
          (fun pd => { pd with
            prefixes := pd.prefixes ++ [mkLease a pref valid len now],
            duid := d }) c2.pds })

/-- `TAddrMgr::addPrefix` (client overload, lines 363-423): fails on a null
prefix, then on a null client, then runs `addPrefixCore`. -/
def addPrefixClient (cl : Option TAddrClient) (d : DUID) (ifn : String)
    (ifi iaid t1 t2 : Nat) (pfx : Option Ip6) (pref valid len now : Nat) :
    Bool × Option TAddrClient :=
  match pfx with
  | none => (false, cl)
  | some a =>
    match cl with
    | none => (false, none)
    | some c =>
      let r := addPrefixCore c d ifn ifi iaid t1 t2 a pref valid len now
      (r.1, some r.2)

/-- `TAddrMgr::addPrefix` (DUID overload, lines 341-361): find the client by
DUID, creating and appending one when absent, then delegate to the client
overload; note that the fresh client stays in the store even when the
delegated call fails. -/
def addPrefix (m : TAddrMgr) (d : DUID) (ifn : String) (ifi iaid t1 t2 : Nat)
    (pfx : Option Ip6) (pref valid len now : Nat) : Bool × TAddrMgr :=
  let m1 := if (findClient m d).isSome then m
            else { m with clients := m.clients ++ [mkClient d] }
  match findClient m1 d with
  | none => (false, m1)  -- dead branch: m1 always holds a client with DUID d
  | some c =>
    let r := addPrefixClient (some c) d ifn ifi iaid t1 t2 pfx pref valid len now
    match r.2 with
    | none => (r.1, m1)  -- dead branch: addPrefixClient keeps the some client
    | some c2 =>
      (r.1, { m1 with
        clients := updateFirst (fun x => x.duid == d) (fun _ => c2) m1.clients })

/-- Body of `TAddrMgr::updatePrefix` (client overload, lines 445-493) once the
null checks have passed: find the PD (fail when absent), refresh its timestamp
and overwrite T1/T2, find the lease (fail when absent), then refresh the
lease timestamp and set its preferred lifetime — and, as in the source, its
valid lifetime — to `pref`. -/
def updatePrefixCore (c : TAddrClient) (iaid t1 t2 : Nat) (a : Ip6)
    (pref now : Nat) : Bool × TAddrClient :=
  match findPD c iaid with
  | none => (false, c)
  | some _ =>
    let c1 := { c with
      pds := updateFirst (fun pd => pd.iaid == iaid)
        (fun pd => { pd with timestamp := now, T1 := t1, T2 := t2 }) c.pds }
    match findPD c1 iaid with
    | none => (false, c1)  -- dead branch
    | some pd =>
      match findLease pd a with
      | none => (false, c1)
      | some _ =>
        (true, { c1 with
          pds := updateFirst (fun pd => pd.iaid == iaid)
            (fun pd => { pd with
              prefixes := updateFirst (fun pr => pr.addr == a)
                (fun pr => { pr with timestamp := now, pref := pref, valid := pref })
                pd.prefixes }) c1.pds })

/-- `TAddrMgr::updatePrefix` (client overload, lines 445-493) with the two
null checks.  The `valid` argument of the source function is unused by the
lease update (the source assigns `setValid(pref)`), so it is not a parameter
of the core. -/
def updatePrefixClient (cl : Option TAddrClient) (iaid t1 t2 : Nat)
    (pfx : Option Ip6) (pref now : Nat) : Bool × Option TAddrClient :=
  match pfx with
  | none => (false, cl)
  | some a =>
    match cl with
    | none => (false, none)
    | some c =>
      let r := updatePrefixCore c iaid t1 t2 a pref now
      (r.1, some r.2)

/-- `TAddrMgr::updatePrefix` (DUID overload, lines 425-443): fail when the
client is absent, otherwise delegate to the client overload. -/
def updatePrefix (m : TAddrMgr) (d : DUID) (iaid t1 t2 : Nat) (pfx : Option Ip6)
    (pref now : Nat) : Bool × TAddrMgr :=
  match findClient m d with
  | none => (false, m)
  | some c =>
    let r := updatePrefixClient (some c) iaid t1 t2 pfx pref now
    match r.2 with
    | none => (r.1, m)  -- dead branch
    | some c2 =>
      (r.1, { m with
        clients := updateFirst (fun x => x.duid == d) (fun _ => c2) m.clients })

/-- `TAddrMgr::delPrefix` (lines 498-566): walk client → PD → lease, failing
on any missing link; remove the lease (`TAddrIA::delPrefix` is not under src/
and is modelled from the spec as removal of the matching lease), drop the PD
when it became empty, and drop the client when all three assignment lists are
empty and the delete-empty-client policy flag is set. -/
def delPrefix (m : TAddrMgr) (d : DUID) (iaid : Nat) (a : Ip6) : Bool × TAddrMgr :=
  match findClient m d with
  | none => (false, m)
  | some c =>
    match findPD c iaid with
    | none => (false, m)
    | some pd =>
      match findLease pd a with
      | none => (false, m)
      | some _ =>
        let pd1 := { pd with prefixes := eraseFirst (fun pr => pr.addr == a) pd.prefixes }
        let c1 := { c with
          pds := updateFirst (fun x => x.iaid == iaid) (fun _ => pd1) c.pds }
        let c2 := if pd1.prefixes.length == 0
                  then { c1 with pds := eraseFirst (fun x => x.iaid == iaid) c1.pds }
                  else c1
        let m1 := { m with
          clients := updateFirst (fun x => x.duid == d) (fun _ => c2) m.clients }
        if c2.ias.length == 0 && c2.tas.length == 0 && c2.pds.length == 0
            && m.deleteEmptyClient then
          (true, { m1 with clients := eraseFirst (fun x => x.duid == d) m1.clients })
        else
          (true, m1)

/-! ## Interface-information reconciliation -/

/-- `TAddrMgr::updateInterfacesInfoIA` (lines 226-267): a legacy record (empty
interface name) takes its name from the index-to-name mapping, failing when
the index is unknown; otherwise the name must be present in the name-to-index
mapping and a changed index is updated in place. -/
def updateInterfacesInfoIA (ia : TAddrIA) (n2i : String → Option Nat)
    (i2n : Nat → Option String) : Bool × TAddrIA :=
  if ia.ifacename.length == 0 then
    match i2n ia.ifindex with
    | none => (false, ia)
    | some nm => (true, { ia with ifacename := nm })
  else
    match n2i ia.ifacename with
    | none => (false, ia)
    | some idx =>
      (true, if ia.ifindex != idx then { ia with ifindex := idx } else ia)

/-- One `while (ia = client->getIA())`-style loop of
`TAddrMgr::updateInterfacesInfo` (lines 199-224): stop at the first failing
assignment; assignments already visited keep their updates. -/
def updateIAList (n2i : String → Option Nat) (i2n : Nat → Option String) :
    List TAddrIA → Bool × List TAddrIA
  | [] => (true, [])
  | ia :: rest =>
    let r := updateInterfacesInfoIA ia n2i i2n
    if r.1 then
      let rr := updateIAList n2i i2n rest
      (rr.1, r.2 :: rr.2)
    else
      (false, r.2 :: rest)

/-- The per-client part of `TAddrMgr::updateInterfacesInfo`: IA list, then TA
list, then PD list, aborting at the first failure. -/
def updateClientInfo (c : TAddrClient) (n2i : String → Option Nat)
    (i2n : Nat → Option String) : Bool × TAddrClient :=
  let r1 := updateIAList n2i i2n c.ias
  if r1.1 then
    let r2 := updateIAList n2i i2n c.tas
    if r2.1 then
      let r3 := updateIAList n2i i2n c.pds
      (r3.1, { c with ias := r1.2, tas := r2.2, pds := r3.2 })
    else
      (false, { c with ias := r1.2, tas := r2.2 })
  else
    (false, { c with ias := r1.2 })

/-- The client loop of `TAddrMgr::updateInterfacesInfo`. -/
def updateClientsInfo (n2i : String → Option Nat) (i2n : Nat → Option String) :
    List TAddrClient → Bool × List TAddrClient
  | [] => (true, [])
  | c :: rest =>
    let r := updateClientInfo c n2i i2n
    if r.1 then
      let rr := updateClientsInfo n2i i2n rest
      (rr.1, r.2 :: rr.2)
    else
      (false, r.2 :: rest)

/-- `TAddrMgr::updateInterfacesInfo` (lines 199-224). -/
def updateInterfacesInfo (m : TAddrMgr) (n2i : String → Option Nat)
    (i2n : Nat → Option String) : Bool × TAddrMgr :=
  let r := updateClientsInfo n2i i2n m.clients
  (r.1, { m with clients := r.2 })

/-- All assignments of a client in the visit order of
`updateInterfacesInfo` (IA, then TA, then PD). -/
def clientAssignments (c : TAddrClient) : List TAddrIA :=
  c.ias ++ c.tas ++ c.pds

/-! ## Timer aggregation -/

/-- The `UINT_MAX` sentinel the four timeout loops start from (AddrMgr.cpp
initialises `unsigned long ts = UINT_MAX`, the maximum representable u32). -/
def UINT_MAX : Nat := 2 ^ 32 - 1

/-- Minimum of a list of timeout values starting from the no-timeout
sentinel. -/
def minList (l : List Nat) : Nat := l.foldl min UINT_MAX

/-- Both leases lists of an assignment (exactly one of the two is populated
for a given assignment type). -/
def iaLeases (ia : TAddrIA) : List TAddrAddr := ia.addrs ++ ia.prefixes

/-- Modelled from the spec: per-assignment T1 timeout (T1 is a renewal timer
in seconds relative to acquisition, spec glossary): the time remaining until
`timestamp + T1`.  `TAddrIA::getT1Timeout` is not under src/. -/
def iaT1Timeout (now : Nat) (ia : TAddrIA) : Nat := ia.timestamp + ia.T1 - now

/-- Modelled from the spec: per-assignment T2 timeout (see `iaT1Timeout`). -/
def iaT2Timeout (now : Nat) (ia : TAddrIA) : Nat := ia.timestamp + ia.T2 - now

/-- Modelled from the spec: per-lease preferred-lifetime timeout. -/
def leasePrefTimeout (now : Nat) (l : TAddrAddr) : Nat := l.timestamp + l.pref - now

/-- Modelled from the spec: per-lease valid-lifetime timeout. -/
def leaseValidTimeout (now : Nat) (l : TAddrAddr) : Nat := l.timestamp + l.valid - now

/-- Modelled from the spec: per-assignment preferred timeout, the minimum over
its leases. -/
def iaPrefTimeout (now : Nat) (ia : TAddrIA) : Nat :=
  minList ((iaLeases ia).map (leasePrefTimeout now))

/-- Modelled from the spec: per-assignment valid timeout, the minimum over its
leases. -/
def iaValidTimeout (now : Nat) (ia : TAddrIA) : Nat :=
  minList ((iaLeases ia).map (leaseValidTimeout now))

/-- Modelled from the spec: `TAddrClient::getT1Timeout` (AddrClient.cpp is not
under src/): the minimum T1 timeout over the client's assignments. -/
def clientT1Timeout (now : Nat) (c : TAddrClient) : Nat :=
  minList ((clientAssignments c).map (iaT1Timeout now))

/-- Modelled from the spec: `TAddrClient::getT2Timeout`. -/
def clientT2Timeout (now : Nat) (c : TAddrClient) : Nat :=
  minList ((clientAssignments c).map (iaT2Timeout now))

/-- Modelled from the spec: `TAddrClient::getPrefTimeout`: the minimum
preferred timeout over the client's assignments and, through them, leases. -/
def clientPrefTimeout (now : Nat) (c : TAddrClient) : Nat :=
  minList ((clientAssignments c).map (iaPrefTimeout now))

/-- Modelled from the spec: `TAddrClient::getValidTimeout`. -/
def clientValidTimeout (now : Nat) (c : TAddrClient) : Nat :=
  minList ((clientAssignments c).map (iaValidTimeout now))

/-- `TAddrMgr::getT1Timeout` (lines 274-284): start from `UINT_MAX` and keep
the smaller of the accumulator and each client's value. -/
def getT1Timeout (m : TAddrMgr) (now : Nat) : Nat :=
  m.clients.foldl
    (fun ts c => if ts > clientT1Timeout now c then clientT1Timeout now c else ts)
    UINT_MAX

/-- `TAddrMgr::getT2Timeout` (lines 286-296). -/
def getT2Timeout (m : TAddrMgr) (now : Nat) : Nat :=
  m.clients.foldl
    (fun ts c => if ts > clientT2Timeout now c then clientT2Timeout now c else ts)
    UINT_MAX

/-- `TAddrMgr::getPrefTimeout` (lines 298-308). -/
def getPrefTimeout (m : TAddrMgr) (now : Nat) : Nat :=
  m.clients.foldl
    (fun ts c => if ts > clientPrefTimeout now c then clientPrefTimeout now c else ts)
    UINT_MAX

/-- `TAddrMgr::getValidTimeout` (lines 310-320). -/
def getValidTimeout (m : TAddrMgr) (now : Nat) : Nat :=
  m.clients.foldl
    (fun ts c => if ts > clientValidTimeout now c then clientValidTimeout now c else ts)
    UINT_MAX

/-! ## Replay-detection counter -/

/-- `TAddrMgr::getNextReplayDetectionValue` (lines 1183-1185): pre-increment
the 64-bit counter and return it.  The wrap of the `uint64_t` increment is
modelled explicitly. -/
def getNextReplayDetectionValue (m : TAddrMgr) : Nat × TAddrMgr :=
  let v := (m.replayDetectionValue + 1) % 2 ^ 64
  (v, { m with replayDetectionValue := v })

/-- `k` successive `getNextReplayDetectionValue` calls, keeping the final
manager. -/
def replayIter (m : TAddrMgr) : Nat → TAddrMgr
  | 0 => m
  | k + 1 => (getNextReplayDetectionValue (replayIter m k)).2

/-! ## Snapshot reader

The reader (`xmlLoadBuiltIn` and the `parseAddr*` family, lines 611-1165) is
line-buffered: each `fgets` line is classified by `strstr` substring tests on
a fixed set of tags and its attributes are extracted with `atoi` (which yields
0 for a missing or non-numeric attribute).  A line is embedded as the
classification the source computes from it:

* numeric attributes carry the `atoi` result (so 0 stands for both a missing
  attribute and a zero or unparseable value, exactly as in the source);
* the element body of a lease line is `none` when the line has no `>`
  (the source then leaves the address pointer null); otherwise it carries the
  result of the `TIPv6Addr` text parse.  That parse is not under src/ and is
  modelled from the spec (an address string that fails to parse produces no
  usable address, spec section 4.3), hence `some none` for an unparseable
  body;
* a line matching none of the tags is `other`.

End of file: `fgets` fails on a read past the last (newline-terminated) line
and the surrounding `while (!feof(f))` loops terminate right after an inner
parser has consumed the end of file.  Each parser therefore reports, next to
its result and the remaining lines, whether it hit the end of file. -/

/-- One classified line of the snapshot file. -/
inductive XLine where
  | addrMgrOpen
  | addrMgrClose
  | timestampTag (ts : Nat)
  | replayDetection (v : Nat)
  | addrClientOpen
  | addrClientClose
  | duidLine (d : DUID)
  | addrIAOpen (t1 t2 iaid : Nat) (ifn : String) (ifi : Nat)
  | addrIAClose
  | addrPDOpen (t1 t2 iaid : Nat) (ifn : String) (ifi : Nat)
  | addrPDClose
  | addrTAOpen
  | addrTAClose
  | addrAddrLine (ts pref valid : Nat) (prefLenAttr : Option Nat) (body : Option (Option Ip6))
  | addrPrefixLine (ts pref valid : Nat) (lenAttr : Option Nat) (body : Option (Option Ip6))
  | other
deriving DecidableEq, Repr

/-- Modelled from the spec: `CLIENT_DEFAULT_PREFIX_LENGTH` (DHCPDefaults.h is
not under src/) is the default on-link length 128 for address leases (spec
section 3). -/
def CLIENT_DEFAULT_PREFIX_LENGTH : Nat := 128

/-- `TAddrMgr::parseAddrAddr` (lines 1067-1116) at its only call site
(`pd == false`): the lease is produced exactly when the body parsed to an
address and `timestamp`, `pref` and `valid` are all non-zero; the on-link
length defaults to `CLIENT_DEFAULT_PREFIX_LENGTH`; the constructor leaves the
lease tentative-unknown and `setTimestamp` overwrites the stamp with the
parsed one. -/
def parseAddrAddrLine (ts pref valid : Nat) (prefLenAttr : Option Nat)
    (body : Option (Option Ip6)) : Option TAddrAddr :=
  let len := prefLenAttr.getD CLIENT_DEFAULT_PREFIX_LENGTH
  match body with
  | none => none
  | some parsed =>
    match parsed with
    | none => none
    | some a =>
      if ts ≠ 0 ∧ pref ≠ 0 ∧ valid ≠ 0 then
        some { addr := a, pref := pref, valid := valid, len := len,
               timestamp := ts, tentative := .unknown }
      else none

/-- `TAddrMgr::parseAddrPrefix` (lines 1118-1165) at its only call site
(`pd == true`): as `parseAddrAddrLine` but the delegated length comes from the
`length=` attribute and defaults to 0. -/
def parseAddrPrefixLine (ts pref valid : Nat) (lenAttr : Option Nat)
    (body : Option (Option Ip6)) : Option TAddrPrefix :=
  let len := lenAttr.getD 0
  match body with
  | none => none
  | some parsed =>
    match parsed with
    | none => none
    | some a =>
      if ts ≠ 0 ∧ pref ≠ 0 ∧ valid ≠ 0 then
        some { addr := a, pref := pref, valid := valid, len := len,
               timestamp := ts, tentative := .unknown }
      else none

/-- One non-terminating line of `TAddrMgr::parseAddrIA` (lines 959-1054): a
`<duid>` line (re)creates the IA from the attributes of the opening tag; an
`<AddrAddr>` line parses a lease and, when an IA exists and the verification
hook accepts the address, appends it and marks it non-tentative; every other
line is ignored (the fqdn lines only attach data no claim refers to). -/
def stepIA (va : Ip6 → Bool) (t1 t2 iaid : Nat) (ifn : String) (ifi now : Nat)
    (st : Option TAddrIA) : XLine → Option TAddrIA
  | .duidLine d => some (mkIA ifn ifi .ia d t1 t2 iaid now)
  | .addrAddrLine ts pref valid pa body =>
    match st with
    | none => none
    | some ia =>
      match parseAddrAddrLine ts pref valid pa body with
      | none => some ia
      | some lease =>
        if va lease.addr then
          some { ia with addrs := ia.addrs ++ [{ lease with tentative := .no }] }
        else
          some ia
  | _ => st

/-- `TAddrMgr::parseAddrIA`: consume lines until `</AddrIA>` (returning the
accumulated IA) or the end of file (returning nothing, as the source does on a
failed `fgets`). -/
def parseAddrIAaux (va : Ip6 → Bool) (t1 t2 iaid : Nat) (ifn : String) (ifi now : Nat)
    (st : Option TAddrIA) : List XLine → Option TAddrIA × List XLine × Bool
  | [] => (none, [], true)
  | .addrIAClose :: rest => (st, rest, false)
  | l :: rest => parseAddrIAaux va t1 t2 iaid ifn ifi now (stepIA va t1 t2 iaid ifn ifi now st l) rest

/-- One non-terminating line of `TAddrMgr::parseAddrPD` (lines 885-942): a
duid line (re)creates the PD and immediately moves it to state `confirm-me`
(the explicit `setState(STATE_CONFIRMME)` of line 920); an `<AddrPrefix>` line
parses a lease and, when a PD exists and `verifyPrefix` accepts it, appends it
and marks it non-tentative. -/
def stepPD (vp : Ip6 → Bool) (t1 t2 iaid : Nat) (ifn : String) (ifi now : Nat)
    (st : Option TAddrIA) : XLine → Option TAddrIA
  | .duidLine d => some { mkIA ifn ifi .pd d t1 t2 iaid now with state := .confirmMe }
  | .addrPrefixLine ts pref valid la body =>
    match st with
    | none => none
    | some pd =>
      match parseAddrPrefixLine ts pref valid la body with
      | none => some pd
      | some lease =>
        if vp lease.addr then
          some { pd with prefixes := pd.prefixes ++ [{ lease with tentative := .no }] }
        else
          some pd
  | _ => st

/-- `TAddrMgr::parseAddrPD`: consume lines until `</AddrPD>` or end of
file. -/
def parseAddrPDaux (vp : Ip6 → Bool) (t1 t2 iaid : Nat) (ifn : String) (ifi now : Nat)
    (st : Option TAddrIA) : List XLine → Option TAddrIA × List XLine × Bool
  | [] => (none, [], true)
  | .addrPDClose :: rest => (st, rest, false)
  | l :: rest => parseAddrPDaux vp t1 t2 iaid ifn ifi now (stepPD vp t1 t2 iaid ifn ifi now st l) rest

/-- `TAddrMgr::parseAddrTA` (lines 857-869): skip to `</AddrTA>`; temporary
assignments are never materialised. -/
def parseAddrTAaux : List XLine → List XLine × Bool
  | [] => ([], true)
  | .addrTAClose :: rest => (rest, false)
  | _ :: rest => parseAddrTAaux rest

/-- Attach a parsed IA to the client under construction, as
`parseAddrClient` does after `parseAddrIA` returns: only when a client exists
and the IA has at least one address. -/
def closeIA (cur : Option TAddrClient) (st : Option TAddrIA) : Option TAddrClient :=
  match st, cur with
  | some ia, some c =>
    if ia.addrs.length ≠ 0 then some { c with ias := c.ias ++ [ia] } else some c
  | _, _ => cur

/-- Attach a parsed PD to the client under construction: only when a client
exists and the PD has at least one prefix. -/
def closePD (cur : Option TAddrClient) (st : Option TAddrIA) : Option TAddrClient :=
  match st, cur with
  | some pd, some c =>
    if pd.prefixes.length ≠ 0 then some { c with pds := c.pds ++ [pd] } else some c
  | _, _ => cur

/-- Retention of a finished client block, as in `xmlLoadBuiltIn` lines
649-664: a produced client is appended to the store only when it owns at
least one assignment. -/
def appendClient (m : TAddrMgr) (cur : Option TAddrClient) : TAddrMgr :=
  match cur with
  | some c =>
    if c.ias.length + c.tas.length + c.pds.length ≠ 0
    then { m with clients := m.clients ++ [c] }
    else m
  | none => m

/-- Which of the nested reader loops is active.  `xmlLoadBuiltIn` nests
`parseAddrClient`, which nests `parseAddrIA` / `parseAddrPD` / `parseAddrTA`;
all of them read one line at a time from the same file handle, so the nest is
a single line-at-a-time machine whose mode names the active loop and carries
that loop local accumulator:

* `top lastClnt` — the `xmlLoadBuiltIn` loop; `lastClnt` is its `clnt`
  variable, the result of the most recent `parseAddrClient` call;
* `client cur` — inside `parseAddrClient`; `cur` is its local client;
* `inIA`/`inPD` — inside `parseAddrIA`/`parseAddrPD` with the attributes of
  the opening tag and the assignment built so far;
* `inTA` — inside `parseAddrTA` (content skipped). -/
inductive LoadMode where
  | top (lastClnt : Option TAddrClient)
  | client (cur : Option TAddrClient)
  | inIA (t1 t2 iaid : Nat) (ifn : String) (ifi : Nat)
      (cur : Option TAddrClient) (st : Option TAddrIA)
  | inPD (t1 t2 iaid : Nat) (ifn : String) (ifi : Nat)
      (cur : Option TAddrClient) (st : Option TAddrIA)
  | inTA (cur : Option TAddrClient)
deriving DecidableEq, Repr

/-- The reader machine (`xmlLoadBuiltIn` lines 611-677 with the sub-parsers
inlined as modes).  End of input while a parser is active reproduces the
`feof` exit paths of the source:

* `top` — the manager loop own `fgets` failed: the load reports failure
  (the truncation path of lines 625-629);
* `client` — `parseAddrClient` own `fgets` failed: it returns no client, the
  manager loop stores that null and its `while (!feof)` exit returns failure;
* inside an assignment block — the inner parser returns nothing,
  `parseAddrClient` leaves its loop via `feof` returning the accumulated
  client, the manager loop stores it, retains it when non-empty, and its exit
  returns success exactly when that client exists.

A `</AddrMgr>` line stops the load, which succeeds exactly when the last
`parseAddrClient` call produced a client.  `<timestamp>` and
`<replayDetection>` lines are recognised in the manager loop irrespective of
whether `<AddrMgr>` was seen, as in the source; `<AddrClient` starts a client
block only after `<AddrMgr>`. -/
def xmlLoadAux (va vp : Ip6 → Bool) (now : Nat) (tag : Bool) (mode : LoadMode)
    (m : TAddrMgr) : List XLine → Bool × TAddrMgr
  | [] =>
    match mode with
    | .top _ => (false, m)
    | .client _ => (false, m)
    | .inIA _ _ _ _ _ cur _ => (cur.isSome, appendClient m cur)
    | .inPD _ _ _ _ _ cur _ => (cur.isSome, appendClient m cur)
    | .inTA cur => (cur.isSome, appendClient m cur)
  | line :: rest =>
    match mode with
    | .top lc =>
      match line with
      | .addrMgrOpen => xmlLoadAux va vp now true (.top lc) m rest
      | .timestampTag _ => xmlLoadAux va vp now tag (.top lc) m rest
      | .replayDetection v =>
        xmlLoadAux va vp now tag (.top lc) { m with replayDetectionValue := v } rest
      | .addrClientOpen =>
        if tag then xmlLoadAux va vp now tag (.client none) m rest
        else xmlLoadAux va vp now tag (.top lc) m rest
      | .addrMgrClose => (lc.isSome, m)
      | _ => xmlLoadAux va vp now tag (.top lc) m rest
    | .client cur =>
      match line with
      | .addrClientClose =>
        xmlLoadAux va vp now tag (.top cur) (appendClient m cur) rest
      | .duidLine d => xmlLoadAux va vp now tag (.client (some (mkClient d))) m rest
      | .addrIAOpen t1 t2 iaid ifn ifi =>
        xmlLoadAux va vp now tag (.inIA t1 t2 iaid ifn ifi cur none) m rest
      | .addrTAOpen => xmlLoadAux va vp now tag (.inTA cur) m rest
      | .addrPDOpen t1 t2 iaid ifn ifi =>
        xmlLoadAux va vp now tag (.inPD t1 t2 iaid ifn ifi cur none) m rest
      | _ => xmlLoadAux va vp now tag (.client cur) m rest
    | .inIA t1 t2 iaid ifn ifi cur st =>
      match line with
      | .addrIAClose => xmlLoadAux va vp now tag (.client (closeIA cur st)) m rest
      | l => xmlLoadAux va vp now tag
          (.inIA t1 t2 iaid ifn ifi cur (stepIA va t1 t2 iaid ifn ifi now st l)) m rest
    | .inPD t1 t2 iaid ifn ifi cur st =>
      match line with
      | .addrPDClose => xmlLoadAux va vp now tag (.client (closePD cur st)) m rest
      | l => xmlLoadAux va vp now tag
          (.inPD t1 t2 iaid ifn ifi cur (stepPD vp t1 t2 iaid ifn ifi now st l)) m rest
    | .inTA cur =>
      match line with
      | .addrTAClose => xmlLoadAux va vp now tag (.client cur) m rest
      | _ => xmlLoadAux va vp now tag (.inTA cur) m rest

/-- `TAddrMgr::xmlLoadBuiltIn` on the classified lines of a readable file. -/
def xmlLoadBuiltIn (va vp : Ip6 → Bool) (now : Nat) (m : TAddrMgr)
    (lines : List XLine) : Bool × TAddrMgr :=
  xmlLoadAux va vp now false (.top none) m lines

/-! ## Snapshot writer

The writer (`operator<<` on `TAddrMgr`, lines 1192-1207) emits the root
element, a wall-clock `<timestamp>`, the `<replayDetection>` counter and one
client block per client.  The client / assignment / lease serialisers live in
AddrClient.cpp / AddrIA.cpp / AddrAddr.cpp, which are not under src/; they
are modelled from the snapshot grammar of spec section 6, emitting for every
assignment its opening tag with the stored attributes, its owner `<duid>`
line, one line per lease, and the closing tag. -/

/-- Modelled from the spec: one serialised address lease. -/
def leaseAddrLine (l : TAddrAddr) : XLine :=
  .addrAddrLine l.timestamp l.pref l.valid (some l.len) (some (some l.addr))

/-- Modelled from the spec: one serialised delegated prefix. -/
def leasePrefixLine (l : TAddrPrefix) : XLine :=
  .addrPrefixLine l.timestamp l.pref l.valid (some l.len) (some (some l.addr))

/-- Modelled from the spec: a serialised IA block. -/
def iaBlockLines (ia : TAddrIA) : List XLine :=
  .addrIAOpen ia.T1 ia.T2 ia.iaid ia.ifacename ia.ifindex
    :: .duidLine ia.duid
    :: (ia.addrs.map leaseAddrLine ++ [.addrIAClose])

/-- Modelled from the spec: a serialised PD block. -/
def pdBlockLines (ia : TAddrIA) : List XLine :=
  .addrPDOpen ia.T1 ia.T2 ia.iaid ia.ifacename ia.ifindex
    :: .duidLine ia.duid
    :: (ia.prefixes.map leasePrefixLine ++ [.addrPDClose])

/-- Modelled from the spec: a serialised TA block (content is ignored by the
reader). -/
def taBlockLines (_ia : TAddrIA) : List XLine :=
  [.addrTAOpen, .addrTAClose]

/-- Modelled from the spec: a serialised client block. -/
def clientLines (c : TAddrClient) : List XLine :=
  .addrClientOpen
    :: .duidLine c.duid
    :: ((c.ias.map iaBlockLines).flatten
        ++ (c.tas.map taBlockLines).flatten
        ++ (c.pds.map pdBlockLines).flatten
        ++ [.addrClientClose])

/-- `operator<<` on `TAddrMgr` (lines 1192-1207): root element, timestamp,
replay-detection counter, one block per client. -/
def dumpLines (m : TAddrMgr) (now : Nat) : List XLine :=
  .addrMgrOpen
    :: .timestampTag now
    :: .replayDetection m.replayDetectionValue
    :: ((m.clients.map clientLines).flatten ++ [.addrMgrClose])

/-! ## Fold-minimum helper lemmas for the timeout accessors -/

theorem ite_gt_eq_min (a b : Nat) : (if a > b then b else a) = min a b := by
  rcases le_or_lt a b with h | h
  · rw [if_neg (by omega), Nat.min_def, if_pos h]
  · rw [if_pos h, Nat.min_def, if_neg (by omega)]

theorem foldl_ite_eq_foldl_min {α : Type} (g : α → Nat) :
    ∀ (l : List α) (a : Nat),
      l.foldl (fun ts c => if ts > g c then g c else ts) a
        = l.foldl (fun ts c => min ts (g c)) a := by
  intro l
  induction l with
  | nil => intro a; rfl
  | cons x xs ih =>
    intro a
    simp only [List.foldl_cons, ite_gt_eq_min, ih]

theorem foldl_min_le_init {α : Type} (g : α → Nat) :
    ∀ (l : List α) (a : Nat), l.foldl (fun ts c => min ts (g c)) a ≤ a := by
  intro l
  induction l with
  | nil => intro a; simp
  | cons x xs ih =>
    intro a
    exact le_trans (ih (min a (g x))) (min_le_left _ _)

theorem foldl_min_le_mem {α : Type} (g : α → Nat) :
    ∀ (l : List α) (a : Nat) (c : α), c ∈ l →
      l.foldl (fun ts c => min ts (g c)) a ≤ g c := by
  intro l
  induction l with
  | nil => intro a c hc; cases hc
  | cons x xs ih =>
    intro a c hc
    rcases List.mem_cons.mp hc with h | h
    · subst h
      exact le_trans (foldl_min_le_init g xs (min a (g c))) (min_le_right _ _)
    · exact ih _ c h

theorem foldl_min_attained {α : Type} (g : α → Nat) :
    ∀ (l : List α) (a : Nat),
      l.foldl (fun ts c => min ts (g c)) a = a
        ∨ ∃ c ∈ l, l.foldl (fun ts c => min ts (g c)) a = g c := by
  intro l
  induction l with
  | nil => intro a; left; rfl
  | cons x xs ih =>
    intro a
    rcases ih (min a (g x)) with h | ⟨c, hc, h⟩
    · simp only [List.foldl_cons, h]
      rcases le_or_lt a (g x) with hle | hlt
      · left; exact Nat.min_eq_left hle
      · right
        exact ⟨x, List.mem_cons_self x xs, Nat.min_eq_right (le_of_lt hlt)⟩
    · right
      exact ⟨c, List.mem_cons_of_mem x hc, by simpa using h⟩

theorem minList_le_sentinel (l : List Nat) : minList l ≤ UINT_MAX := by
  have h : l.foldl min UINT_MAX = l.foldl (fun ts c => min ts (id c)) UINT_MAX := rfl
  rw [minList, h]
  exact foldl_min_le_init id l UINT_MAX

/-! ## Claim C8 — timer aggregation returns minima, sentinel when empty -/

theorem getT1Timeout_eq_fold (m : TAddrMgr) (now : Nat) :
    getT1Timeout m now
      = m.clients.foldl (fun ts c => min ts (clientT1Timeout now c)) UINT_MAX :=
  foldl_ite_eq_foldl_min (clientT1Timeout now) m.clients UINT_MAX

theorem getT2Timeout_eq_fold (m : TAddrMgr) (now : Nat) :
    getT2Timeout m now
      = m.clients.foldl (fun ts c => min ts (clientT2Timeout now c)) UINT_MAX :=
  foldl_ite_eq_foldl_min (clientT2Timeout now) m.clients UINT_MAX

theorem getPrefTimeout_eq_fold (m : TAddrMgr) (now : Nat) :
    getPrefTimeout m now
      = m.clients.foldl (fun ts c => min ts (clientPrefTimeout now c)) UINT_MAX :=
  foldl_ite_eq_foldl_min (clientPrefTimeout now) m.clients UINT_MAX

theorem getValidTimeout_eq_fold (m : TAddrMgr) (now : Nat) :
    getValidTimeout m now
      = m.clients.foldl (fun ts c => min ts (clientValidTimeout now c)) UINT_MAX :=
  foldl_ite_eq_foldl_min (clientValidTimeout now) m.clients UINT_MAX

theorem clientTimeout_le_sentinel (g : TAddrIA → Nat) (c : TAddrClient) :
    minList ((clientAssignments c).map g) ≤ UINT_MAX :=
  minList_le_sentinel _

theorem fold_min_client_facts (g : TAddrClient → Nat) (hg : ∀ c, g c ≤ UINT_MAX)
    (l : List TAddrClient) :
    (l = [] → l.foldl (fun ts c => min ts (g c)) UINT_MAX = UINT_MAX)
    ∧ (∀ c ∈ l, l.foldl (fun ts c => min ts (g c)) UINT_MAX ≤ g c)
    ∧ (l ≠ [] → ∃ c ∈ l, l.foldl (fun ts c => min ts (g c)) UINT_MAX = g c) := by
  refine ⟨fun h => by subst h; rfl, fun c hc => foldl_min_le_mem g l UINT_MAX c hc, ?_⟩
  intro hne
  rcases foldl_min_attained g l UINT_MAX with h | h
  · rcases l with _ | ⟨c, cs⟩
    · exact absurd rfl hne
    · refine ⟨c, List.mem_cons_self c cs, ?_⟩
      have hle := foldl_min_le_mem g (c :: cs) UINT_MAX c (List.mem_cons_self c cs)
      have hge : g c ≥ (c :: cs).foldl (fun ts c => min ts (g c)) UINT_MAX := hle
      have hge2 : (c :: cs).foldl (fun ts c => min ts (g c)) UINT_MAX ≥ g c := by
        rw [h]; exact hg c
      exact le_antisymm hle hge2
  · exact h

/-- C8: each of `getT1Timeout`, `getT2Timeout`, `getPrefTimeout` and
`getValidTimeout` returns the minimum of the corresponding per-client timeout
(each of which is, by `clientT1Timeout` and friends, the minimum over that
client's assignments and, for the lifetime timeouts, their leases): the
accessor is a lower bound of every client's value and is attained by some
client whenever a client exists; a manager with no clients gets the
no-timeout sentinel `UINT_MAX`. -/
theorem getTimeouts_are_minima (m : TAddrMgr) (now : Nat) (hne : m.clients ≠ []) :
    (∀ c ∈ m.clients,
      getT1Timeout m now ≤ clientT1Timeout now c
      ∧ getT2Timeout m now ≤ clientT2Timeout now c
      ∧ getPrefTimeout m now ≤ clientPrefTimeout now c
      ∧ getValidTimeout m now ≤ clientValidTimeout now c)
    ∧ ((∃ c ∈ m.clients, getT1Timeout m now = clientT1Timeout now c)
      ∧ (∃ c ∈ m.clients, getT2Timeout m now = clientT2Timeout now c)
      ∧ (∃ c ∈ m.clients, getPrefTimeout m now = clientPrefTimeout now c)
      ∧ (∃ c ∈ m.clients, getValidTimeout m now = clientValidTimeout now c))
    ∧ (∀ m0 : TAddrMgr, m0.clients = [] →
        getT1Timeout m0 now = UINT_MAX ∧ getT2Timeout m0 now = UINT_MAX
        ∧ getPrefTimeout m0 now = UINT_MAX ∧ getValidTimeout m0 now = UINT_MAX) := by
  have h1 := fold_min_client_facts (clientT1Timeout now)
    (fun c => clientTimeout_le_sentinel _ c) m.clients
  have h2 := fold_min_client_facts (clientT2Timeout now)
    (fun c => clientTimeout_le_sentinel _ c) m.clients
  have h3 := fold_min_client_facts (clientPrefTimeout now)
    (fun c => clientTimeout_le_sentinel _ c) m.clients
  have h4 := fold_min_client_facts (clientValidTimeout now)
    (fun c => clientTimeout_le_sentinel _ c) m.clients
  refine ⟨?_, ?_, ?_⟩
  · intro c hc
    rw [getT1Timeout_eq_fold, getT2Timeout_eq_fold, getPrefTimeout_eq_fold,
      getValidTimeout_eq_fold]
    exact ⟨h1.2.1 c hc, h2.2.1 c hc, h3.2.1 c hc, h4.2.1 c hc⟩
  · rw [getT1Timeout_eq_fold, getT2Timeout_eq_fold, getPrefTimeout_eq_fold,
      getValidTimeout_eq_fold]
    exact ⟨h1.2.2 hne, h2.2.2 hne, h3.2.2 hne, h4.2.2 hne⟩
  · intro m0 h0
    rw [getT1Timeout_eq_fold, getT2Timeout_eq_fold, getPrefTimeout_eq_fold,
      getValidTimeout_eq_fold, h0]
    exact ⟨rfl, rfl, rfl, rfl⟩

/-- A two-client fixture: preferred timeouts 600 and 1200 at `now = 0` (the
spec scenario for timer minima). -/
def mgrTimraces : TAddrMgr :=
  { clients :=
      [ { duid := [1],
          ias := [{ ifacename := "eth0", ifindex := 1, iatype := .ia, duid := [1],
                    T1 := 1800, T2 := 2880, iaid := 1, state := .configured,
                    timestamp := 0,
                    addrs := [{ addr := 10, pref := 600, valid := 900, len := 128,
                                timestamp := 0, tentative := .no }],
                    prefixes := [] }],
          tas := [], pds := [] },
        { duid := [2],
          ias := [{ ifacename := "eth0", ifindex := 1, iatype := .ia, duid := [2],
                    T1 := 2000, T2 := 3000, iaid := 2, state := .configured,
                    timestamp := 0,
                    addrs := [{ addr := 11, pref := 1200, valid := 1500, len := 128,
                                timestamp := 0, tentative := .no }],
                    prefixes := [] }],
          tas := [], pds := [] } ],
    replayDetectionValue := 0,
    deleteEmptyClient := true }

/-- Witness for C8 at the two-client fixture: the hypothesis (a non-empty
client list) holds and the preferred-timeout accessor indeed attains a
client's value, namely 600. -/
theorem getTimeouts_are_minima_witness :
    mgrTimraces.clients ≠ []
    ∧ (∃ c ∈ mgrTimraces.clients,
        getPrefTimeout mgrTimraces 0 = clientPrefTimeout 0 c)
    ∧ getPrefTimeout mgrTimraces 0 = 600 :=
  ⟨by decide,
   (getTimeouts_are_minima mgrTimraces 0 (by decide)).2.1.2.2.1,
   by decide⟩

/-! ## Claim C5 — updatePrefix refreshes the lease and assigns valid := pref -/

theorem find?_updateFirst_const (p : α → Bool) (y : α) (l : List α) (c : α)
    (hc : l.find? p = some c) (hy : p y = true) :
    (updateFirst p (fun _ => y) l).find? p = some y := by
  rw [find?_updateFirst p (fun _ => y) (fun _ _ => hy) l, hc]
  rfl

theorem findPD_stamp (c : TAddrClient) (iaid t1 t2 now : Nat) (pd : TAddrIA)
    (hpd : findPD c iaid = some pd) :
    findPD { c with
        pds := updateFirst (fun pd => pd.iaid == iaid)
          (fun pd => { pd with timestamp := now, T1 := t1, T2 := t2 }) c.pds } iaid
      = some { pd with timestamp := now, T1 := t1, T2 := t2 } := by
  have hP : ∀ x : TAddrIA, (x.iaid == iaid) = true →
      (({ x with timestamp := now, T1 := t1, T2 := t2 } : TAddrIA).iaid == iaid)
        = true := by
    intro x hx
    simpa using hx
  unfold findPD at hpd ⊢
  rw [find?_updateFirst _ _ hP c.pds, hpd]
  rfl

theorem updatePrefixCore_run (c : TAddrClient) (iaid t1 t2 : Nat) (a : Ip6)
    (pref now : Nat) (pd : TAddrIA) (pr : TAddrPrefix)
    (hpd : findPD c iaid = some pd) (hpr : findLease pd a = some pr) :
    (updatePrefixCore c iaid t1 t2 a pref now).1 = true
    ∧ (updatePrefixCore c iaid t1 t2 a pref now).2.duid = c.duid
    ∧ ∃ pd2, findPD (updatePrefixCore c iaid t1 t2 a pref now).2 iaid = some pd2
        ∧ findLease pd2 a
            = some { pr with timestamp := now, pref := pref, valid := pref } := by
  have hmid := findPD_stamp c iaid t1 t2 now pd hpd
  have hpr2 : findLease { pd with timestamp := now, T1 := t1, T2 := t2 } a = some pr := hpr
  have hFP : ∀ x : TAddrIA, (x.iaid == iaid) = true →
      (({ x with
          prefixes := updateFirst (fun pr => pr.addr == a)
            (fun pr => { pr with timestamp := now, pref := pref, valid := pref })
            x.prefixes } : TAddrIA).iaid == iaid) = true := by
    intro x hx
    simpa using hx
  have haP : ∀ x : TAddrPrefix, (x.addr == a) = true →
      (({ x with timestamp := now, pref := pref, valid := pref } : TAddrPrefix).addr == a)
        = true := by
    intro x hx
    simpa using hx
  refine ⟨?_, ?_, ?_⟩
  · simp only [updatePrefixCore, hpd, hmid, hpr2]
  · simp only [updatePrefixCore, hpd, hmid, hpr2]
  · simp only [updatePrefixCore, hpd, hmid, hpr2]
    refine ⟨{ pd with timestamp := now, T1 := t1, T2 := t2, prefixes := updateFirst (fun pr => pr.addr == a) (fun pr => { pr with timestamp := now, pref := pref, valid := pref }) pd.prefixes }, ?_, ?_⟩
    · unfold findPD
      unfold findPD at hmid
      rw [find?_updateFirst _ _ hFP, hmid]
      rfl
    · show (updateFirst (fun pr => pr.addr == a)
          (fun pr => { pr with timestamp := now, pref := pref, valid := pref })
          pd.prefixes).find? (fun pr => pr.addr == a)
        = some { pr with timestamp := now, pref := pref, valid := pref }
      unfold findLease at hpr
      rw [find?_updateFirst _ _ haP, hpr]
      rfl

theorem updatePrefixCore_fail_nolease (c : TAddrClient) (iaid t1 t2 : Nat)
    (a : Ip6) (pref now : Nat) (pd : TAddrIA)
    (hpd : findPD c iaid = some pd) (hpr : findLease pd a = none) :
    (updatePrefixCore c iaid t1 t2 a pref now).1 = false := by
  have hmid := findPD_stamp c iaid t1 t2 now pd hpd
  have hpr2 : findLease { pd with timestamp := now, T1 := t1, T2 := t2 } a = none := hpr
  simp only [updatePrefixCore, hpd, hmid, hpr2]

/-- C5: on an existing client / PD / prefix chain, `updatePrefix` succeeds and
the stored lease afterwards carries a refreshed acquired-at stamp, preferred
lifetime `pref`, and — the source quirk — valid lifetime `pref` as well (not
the `valid` argument, which the lease update never reads); a missing client,
PD or prefix, or a null prefix argument, makes the call fail. -/
theorem updatePrefix_correct (m : TAddrMgr) (d : DUID) (iaid t1 t2 : Nat)
    (a : Ip6) (pref now : Nat) (c : TAddrClient) (pd : TAddrIA) (pr : TAddrPrefix)
    (hc : findClient m d = some c) (hpd : findPD c iaid = some pd)
    (hpr : findLease pd a = some pr) :
    (updatePrefix m d iaid t1 t2 (some a) pref now).1 = true
    ∧ (∃ c2, findClient (updatePrefix m d iaid t1 t2 (some a) pref now).2 d = some c2
        ∧ ∃ pd2, findPD c2 iaid = some pd2
        ∧ findLease pd2 a
            = some { pr with timestamp := now, pref := pref, valid := pref })
    ∧ (∀ (m2 : TAddrMgr) (d2 : DUID) (i2 u1 u2 : Nat) (x2 : Option Ip6) (p2 n2 : Nat),
        findClient m2 d2 = none → updatePrefix m2 d2 i2 u1 u2 x2 p2 n2 = (false, m2))
    ∧ (∀ (m2 : TAddrMgr) (d2 : DUID) (c2 : TAddrClient) (i2 u1 u2 a2 p2 n2 : Nat),
        findClient m2 d2 = some c2 → findPD c2 i2 = none →
          (updatePrefix m2 d2 i2 u1 u2 (some a2) p2 n2).1 = false)
    ∧ (∀ (m2 : TAddrMgr) (d2 : DUID) (c2 : TAddrClient) (pd2 : TAddrIA)
          (i2 u1 u2 a2 p2 n2 : Nat),
        findClient m2 d2 = some c2 → findPD c2 i2 = some pd2 →
        findLease pd2 a2 = none →
          (updatePrefix m2 d2 i2 u1 u2 (some a2) p2 n2).1 = false)
    ∧ (∀ (m2 : TAddrMgr) (d2 : DUID) (i2 u1 u2 p2 n2 : Nat),
        (updatePrefix m2 d2 i2 u1 u2 none p2 n2).1 = false) := by
  have hcore := updatePrefixCore_run c iaid t1 t2 a pref now pd pr hpd hpr
  have hcd : (c.duid == d) = true := by
    simpa using List.find?_some hc
  refine ⟨?_, ?_, ?_, ?_, ?_, ?_⟩
  · simp only [updatePrefix, hc, updatePrefixClient]
    exact hcore.1
  · simp only [updatePrefix, hc, updatePrefixClient]
    refine ⟨(updatePrefixCore c iaid t1 t2 a pref now).2, ?_, hcore.2.2⟩
    unfold findClient
    exact find?_updateFirst_const _ _ _ c hc (by rw [hcore.2.1]; exact hcd)
  · intro m2 d2 i2 u1 u2 x2 p2 n2 h
    simp [updatePrefix, h]
  · intro m2 d2 c2 i2 u1 u2 a2 p2 n2 h1 h2
    simp only [updatePrefix, h1, updatePrefixClient]
    simp only [updatePrefixCore, h2]
  · intro m2 d2 c2 pd2 i2 u1 u2 a2 p2 n2 h1 h2 h3
    simp only [updatePrefix, h1, updatePrefixClient]
    exact updatePrefixCore_fail_nolease c2 i2 u1 u2 a2 p2 n2 pd2 h2 h3
  · intro m2 d2 i2 u1 u2 p2 n2
    rcases hfc : findClient m2 d2 with _ | c2
    · simp [updatePrefix, hfc]
    · simp [updatePrefix, hfc, updatePrefixClient]

/-- A one-client fixture with one PD (IAID 42) holding one prefix lease. -/
def mgrOnePD : TAddrMgr :=
  { clients :=
      [ { duid := [1, 2],
          ias := [], tas := [],
          pds := [{ ifacename := "eth0", ifindex := 3, iatype := .pd, duid := [1, 2],
                    T1 := 1800, T2 := 2880, iaid := 42, state := .configured,
                    timestamp := 5,
                    addrs := [],
                    prefixes := [{ addr := 77, pref := 3600, valid := 7200, len := 48,
                                   timestamp := 5, tentative := .unknown }] }] } ],
    replayDetectionValue := 0,
    deleteEmptyClient := true }

/-- The PD of `mgrOnePD`. -/
def pdOf42 : TAddrIA :=
  { ifacename := "eth0", ifindex := 3, iatype := .pd, duid := [1, 2],
    T1 := 1800, T2 := 2880, iaid := 42, state := .configured,
    timestamp := 5, addrs := [],
    prefixes := [{ addr := 77, pref := 3600, valid := 7200, len := 48,
                   timestamp := 5, tentative := .unknown }] }

/-- The single client of `mgrOnePD`. -/
def clientOf12 : TAddrClient :=
  { duid := [1, 2], ias := [], tas := [], pds := [pdOf42] }

/-- The single lease of `mgrOnePD`. -/
def leaseOf77 : TAddrPrefix :=
  { addr := 77, pref := 3600, valid := 7200, len := 48,
    timestamp := 5, tentative := .unknown }

/-- Witness for C5 at the one-PD fixture: the chain hypotheses hold and the
update succeeds with the quirky `valid := pref` outcome. -/
theorem updatePrefix_correct_witness :
    (updatePrefix mgrOnePD [1, 2] 42 1000 2000 (some 77) 4000 9).1 = true
    ∧ (∃ c2, findClient (updatePrefix mgrOnePD [1, 2] 42 1000 2000 (some 77) 4000 9).2 [1, 2]
          = some c2
        ∧ ∃ pd2, findPD c2 42 = some pd2
        ∧ findLease pd2 77
            = some { addr := 77, pref := 4000, valid := 4000, len := 48,
                     timestamp := 9, tentative := .unknown }) := by
  have h := updatePrefix_correct mgrOnePD [1, 2] 42 1000 2000 77 4000 9
    clientOf12 pdOf42 leaseOf77 (by decide) (by decide) (by decide)
  exact ⟨h.1, h.2.1⟩

/-! ## Claim C2 — delPrefix removes the lease and cascades deletions -/

theorem updateFirst_length (p : α → Bool) (f : α → α) :
    ∀ l : List α, (updateFirst p f l).length = l.length := by
  intro l
  induction l with
  | nil => rfl
  | cons x xs ih =>
    by_cases hx : p x = true
    · simp [updateFirst, hx]
    · simp only [Bool.not_eq_true] at hx
      simp [updateFirst, hx, ih]

theorem eraseFirst_length (p : α → Bool) :
    ∀ (l : List α) (x : α), l.find? p = some x →
      (eraseFirst p l).length + 1 = l.length := by
  intro l
  induction l with
  | nil => intro x hx; simp [List.find?] at hx
  | cons y ys ih =>
    intro x hx
    by_cases hy : p y = true
    · simp [eraseFirst, hy]
    · simp only [Bool.not_eq_true] at hy
      rw [find?_cons_eq, if_neg (by simp [hy])] at hx
      simp [eraseFirst, hy, ih x hx]

theorem find?_eraseFirst_of_countP_le_one (p : α → Bool) :
    ∀ l : List α, l.countP p ≤ 1 → (eraseFirst p l).find? p = none := by
  intro l
  induction l with
  | nil => intro _; rfl
  | cons x xs ih =>
    intro h
    by_cases hx : p x = true
    · rw [List.countP_cons_of_pos _ _ hx] at h
      have h0 : xs.countP p = 0 := by omega
      have : ∀ y ∈ xs, ¬ p y = true := by
        intro y hy
        exact (List.countP_eq_zero.mp h0) y hy
      simp only [eraseFirst, hx, if_pos]
      exact List.find?_eq_none.mpr this
    · simp only [Bool.not_eq_true] at hx
      rw [List.countP_cons_of_neg _ _ (by simp [hx])] at h
      simp only [eraseFirst, hx, Bool.false_eq_true, if_false]
      rw [find?_cons_eq, if_neg (by simp [hx])]
      exact ih h

theorem eraseFirst_updateFirst (p : α → Bool) (f : α → α)
    (hp : ∀ x, p x = true → p (f x) = true) :
    ∀ l : List α, eraseFirst p (updateFirst p f l) = eraseFirst p l := by
  intro l
  induction l with
  | nil => rfl
  | cons x xs ih =>
    by_cases hx : p x = true
    · simp [updateFirst, eraseFirst, hx, hp x hx]
    · simp only [Bool.not_eq_true] at hx
      simp [updateFirst, eraseFirst, hx, ih]

theorem find?_ne_nil {p : α → Bool} {l : List α} {x : α}
    (h : l.find? p = some x) : l ≠ [] := by
  intro hl
  rw [hl] at h
  simp [List.find?] at h

/-- C2: when the client (by DUID), the PD (by IAID) and the lease (by address
bytes) all exist, `delPrefix` returns true and the lease is gone; a PD left
with zero prefixes is removed from the client, and a client left with zero
IA, TA and PD assignments is removed from the manager when the
delete-empty-client flag is set.  Any missing link makes the call return
false (with the store untouched).  The uniqueness hypotheses `hu`, `hupd`
and `huc` are the store invariants of spec section 8 (no duplicate lease
addresses in a PD, no duplicate IAIDs in a client, no duplicate client
DUIDs). -/
theorem delPrefix_correct (m : TAddrMgr) (d : DUID) (iaid : Nat) (a : Ip6)
    (c : TAddrClient) (pd : TAddrIA) (pr : TAddrPrefix)
    (hc : findClient m d = some c) (hpd : findPD c iaid = some pd)
    (hpr : findLease pd a = some pr)
    (hu : pd.prefixes.countP (fun x => x.addr == a) ≤ 1)
    (hupd : c.pds.countP (fun x => x.iaid == iaid) ≤ 1)
    (huc : m.clients.countP (fun x => x.duid == d) ≤ 1) :
    (delPrefix m d iaid a).1 = true
    ∧ (pd.prefixes.length ≠ 1 →
        ∃ c2, findClient (delPrefix m d iaid a).2 d = some c2
          ∧ ∃ pd2, findPD c2 iaid = some pd2 ∧ findLease pd2 a = none)
    ∧ (pd.prefixes.length = 1 →
        ∀ c2, findClient (delPrefix m d iaid a).2 d = some c2 →
          findPD c2 iaid = none)
    ∧ (pd.prefixes.length = 1 → c.ias = [] → c.tas = [] → c.pds.length = 1 →
        m.deleteEmptyClient = true →
          findClient (delPrefix m d iaid a).2 d = none)
    ∧ (∀ (m2 : TAddrMgr) (d2 : DUID) (i2 a2 : Nat),
        findClient m2 d2 = none → delPrefix m2 d2 i2 a2 = (false, m2))
    ∧ (∀ (m2 : TAddrMgr) (d2 : DUID) (c2 : TAddrClient) (i2 a2 : Nat),
        findClient m2 d2 = some c2 → findPD c2 i2 = none →
          delPrefix m2 d2 i2 a2 = (false, m2))
    ∧ (∀ (m2 : TAddrMgr) (d2 : DUID) (c2 : TAddrClient) (pd2 : TAddrIA) (i2 a2 : Nat),
        findClient m2 d2 = some c2 → findPD c2 i2 = some pd2 →
        findLease pd2 a2 = none → delPrefix m2 d2 i2 a2 = (false, m2)) := by
  have hc' : m.clients.find? (fun x => x.duid == d) = some c := hc
  have hpd' : c.pds.find? (fun x => x.iaid == iaid) = some pd := hpd
  have hpr' : pd.prefixes.find? (fun x => x.addr == a) = some pr := hpr
  have hcd : (c.duid == d) = true := by simpa using List.find?_some hc'
  have hpdid : (pd.iaid == iaid) = true := by simpa using List.find?_some hpd'
  have hlenpfx := eraseFirst_length (fun x => x.addr == a) pd.prefixes pr hpr'
  have hlenpds : c.pds ≠ [] := find?_ne_nil hpd'
  refine ⟨?_, ?_, ?_, ?_, ?_, ?_, ?_⟩
  · -- the call returns true
    simp only [delPrefix, hc, hpd, hpr]
    split <;> split <;> rfl
  · -- PD stays: the lease alone is gone
    intro hne
    have hpos : 0 < pd.prefixes.length := List.length_pos.mpr (find?_ne_nil hpr')
    have hcond1 : ((eraseFirst (fun x => x.addr == a) pd.prefixes).length == 0) = false := by
      simp only [beq_eq_false_iff_ne, ne_eq]
      omega
    have hulen : (updateFirst (fun x => x.iaid == iaid) (fun _ => { pd with prefixes := eraseFirst (fun x => x.addr == a) pd.prefixes }) c.pds).length = c.pds.length :=
      updateFirst_length _ _ _
    have hpos2 : 0 < c.pds.length := List.length_pos.mpr hlenpds
    have hcond2 : (c.ias.length == 0 && c.tas.length == 0 && (updateFirst (fun x => x.iaid == iaid) (fun _ => { pd with prefixes := eraseFirst (fun x => x.addr == a) pd.prefixes }) c.pds).length == 0 && m.deleteEmptyClient) = false := by
      simp only [Bool.and_eq_false_iff]
      left
      right
      simp only [beq_eq_false_iff_ne, ne_eq]
      omega
    simp only [delPrefix, hc, hpd, hpr, hcond1, Bool.false_eq_true, if_false, hcond2]
    refine ⟨{ c with pds := updateFirst (fun x => x.iaid == iaid) (fun _ => { pd with prefixes := eraseFirst (fun x => x.addr == a) pd.prefixes }) c.pds }, ?_, ?_⟩
    · unfold findClient
      exact find?_updateFirst_const _ _ _ c hc' (by simpa using hcd)
    · refine ⟨{ pd with prefixes := eraseFirst (fun x => x.addr == a) pd.prefixes }, ?_, ?_⟩
      · unfold findPD
        exact find?_updateFirst_const _ _ _ pd hpd' (by simpa using hpdid)
      · show (eraseFirst (fun x => x.addr == a) pd.prefixes).find? (fun x => x.addr == a) = none
        exact find?_eraseFirst_of_countP_le_one _ pd.prefixes hu
  · -- PD became empty: no PD with this IAID remains
    intro hone c2 hfound
    have hcond1 : ((eraseFirst (fun x => x.addr == a) pd.prefixes).length == 0) = true := by
      simp only [beq_iff_eq]
      omega
    simp only [delPrefix, hc, hpd, hpr, hcond1, if_true] at hfound
    set pdsA : List TAddrIA := eraseFirst (fun x => x.iaid == iaid) (updateFirst (fun x => x.iaid == iaid) (fun _ => { pd with prefixes := eraseFirst (fun x => x.addr == a) pd.prefixes }) c.pds) with hpdsA
    have hnone : pdsA.find? (fun x => x.iaid == iaid) = none := by
      rw [hpdsA, eraseFirst_updateFirst (fun (x : TAddrIA) => x.iaid == iaid) (fun _ => { pd with prefixes := eraseFirst (fun x => x.addr == a) pd.prefixes }) (fun x hx => by simpa using hpdid)]
      exact find?_eraseFirst_of_countP_le_one _ c.pds hupd
    rcases hsplit : (c.ias.length == 0 && c.tas.length == 0 && pdsA.length == 0 && m.deleteEmptyClient) with _ | _
    · rw [hsplit] at hfound
      simp only [Bool.false_eq_true, if_false] at hfound
      have hsome : ({ m with clients := updateFirst (fun x => x.duid == d) (fun _ => { c with pds := pdsA }) m.clients } : TAddrMgr).clients.find? (fun x => x.duid == d) = some { c with pds := pdsA } :=
        find?_updateFirst_const _ _ _ c hc' (by simpa using hcd)
      unfold findClient at hfound
      rw [hsome] at hfound
      cases hfound
      unfold findPD
      exact hnone
    · rw [hsplit] at hfound
      simp only [if_true] at hfound
      unfold findClient at hfound
      rw [show (eraseFirst (fun x => x.duid == d) (updateFirst (fun x => x.duid == d) (fun _ => { c with pds := pdsA }) m.clients)).find? (fun x => x.duid == d) = none from by
        rw [eraseFirst_updateFirst (fun (x : TAddrClient) => x.duid == d) (fun _ => ({ c with pds := pdsA } : TAddrClient)) (fun x hx => by simpa using hcd)]
        exact find?_eraseFirst_of_countP_le_one _ m.clients huc] at hfound
      cases hfound
  · -- lease, PD and client all go away
    intro hone hias htas hpds hflag
    have hcond1 : ((eraseFirst (fun x => x.addr == a) pd.prefixes).length == 0) = true := by
      simp only [beq_iff_eq]
      omega
    have hfindpds : (updateFirst (fun x => x.iaid == iaid) (fun _ => { pd with prefixes := eraseFirst (fun x => x.addr == a) pd.prefixes }) c.pds).find? (fun x => x.iaid == iaid) = some { pd with prefixes := eraseFirst (fun x => x.addr == a) pd.prefixes } :=
      find?_updateFirst_const _ _ _ pd hpd' (by simpa using hpdid)
    have herased : (eraseFirst (fun x => x.iaid == iaid) (updateFirst (fun x => x.iaid == iaid) (fun _ => { pd with prefixes := eraseFirst (fun x => x.addr == a) pd.prefixes }) c.pds)).length = 0 := by
      have h1 := eraseFirst_length (fun (x : TAddrIA) => x.iaid == iaid) _ _ hfindpds
      have h2 : (updateFirst (fun x => x.iaid == iaid) (fun _ => { pd with prefixes := eraseFirst (fun x => x.addr == a) pd.prefixes }) c.pds).length = c.pds.length :=
        updateFirst_length _ _ _
      omega
    have hcond2 : (c.ias.length == 0 && c.tas.length == 0 && (eraseFirst (fun x => x.iaid == iaid) (updateFirst (fun x => x.iaid == iaid) (fun _ => { pd with prefixes := eraseFirst (fun x => x.addr == a) pd.prefixes }) c.pds)).length == 0 && m.deleteEmptyClient) = true := by
      rw [hias, htas, hflag, herased]
      rfl
    simp only [delPrefix, hc, hpd, hpr, hcond1, if_true, hcond2]
    unfold findClient
    rw [eraseFirst_updateFirst (fun (x : TAddrClient) => x.duid == d) (fun _ => ({ c with pds := eraseFirst (fun x => x.iaid == iaid) (updateFirst (fun x => x.iaid == iaid) (fun _ => { pd with prefixes := eraseFirst (fun x => x.addr == a) pd.prefixes }) c.pds) } : TAddrClient)) (fun x hx => by simpa using hcd)]
    exact find?_eraseFirst_of_countP_le_one _ m.clients huc
  · intro m2 d2 i2 a2 h
    simp [delPrefix, h]
  · intro m2 d2 c2 i2 a2 h1 h2
    simp [delPrefix, h1, h2]
  · intro m2 d2 c2 pd2 i2 a2 h1 h2 h3
    simp [delPrefix, h1, h2, h3]

/-- Witness for C2 at the one-PD fixture: the chain and uniqueness hypotheses
hold, the deletion succeeds and cascades all the way to removing the
client. -/
theorem delPrefix_correct_witness :
    (delPrefix mgrOnePD [1, 2] 42 77).1 = true
    ∧ findClient (delPrefix mgrOnePD [1, 2] 42 77).2 [1, 2] = none := by
  have h := delPrefix_correct mgrOnePD [1, 2] 42 77 clientOf12 pdOf42 leaseOf77
    (by decide) (by decide) (by decide) (by decide) (by decide) (by decide)
  exact ⟨h.1, h.2.2.2.1 (by decide) (by decide) (by decide) (by decide) (by decide)⟩

/-! ## Claim C1 — addPrefix creates missing links and appends the lease -/

/-- The client → PD chain addressed by `addPrefix` before the call. -/
def chainPD (m : TAddrMgr) (d : DUID) (iaid : Nat) : Option TAddrIA :=
  match findClient m d with
  | none => none
  | some c => findPD c iaid

/-- Whether a lease with the same address bytes is already present in the
addressed PD. -/
def dupPresent (m : TAddrMgr) (d : DUID) (iaid : Nat) (a : Ip6) : Bool :=
  match chainPD m d iaid with
  | none => false
  | some pd => (findLease pd a).isSome

theorem addPrefixCore_existing (c : TAddrClient) (d : DUID) (ifn : String)
    (ifi iaid t1 t2 : Nat) (a : Ip6) (pref valid len now : Nat) (pd : TAddrIA)
    (hpd : findPD c iaid = some pd) (hnl : findLease pd a = none) :
    (addPrefixCore c d ifn ifi iaid t1 t2 a pref valid len now).1 = true
    ∧ (addPrefixCore c d ifn ifi iaid t1 t2 a pref valid len now).2.duid = c.duid
    ∧ (addPrefixCore c d ifn ifi iaid t1 t2 a pref valid len now).2.ias = c.ias
    ∧ (addPrefixCore c d ifn ifi iaid t1 t2 a pref valid len now).2.tas = c.tas
    ∧ findPD (addPrefixCore c d ifn ifi iaid t1 t2 a pref valid len now).2 iaid
        = some { pd with T1 := t1, T2 := t2, duid := d, prefixes := pd.prefixes ++ [mkLease a pref valid len now] } := by
  have hpd' : c.pds.find? (fun x => x.iaid == iaid) = some pd := hpd
  have hpdT : (updateFirst (fun x => x.iaid == iaid) (fun pd => { pd with T1 := t1, T2 := t2 }) c.pds).find? (fun x => x.iaid == iaid) = some { pd with T1 := t1, T2 := t2 } := by
    rw [find?_updateFirst (fun (x : TAddrIA) => x.iaid == iaid) (fun pd => { pd with T1 := t1, T2 := t2 }) (fun x hx => by simpa using hx) c.pds, hpd']
    rfl
  have hc2 : findPD { c with pds := updateFirst (fun x => x.iaid == iaid) (fun pd => { pd with T1 := t1, T2 := t2 }) c.pds } iaid = some { pd with T1 := t1, T2 := t2 } := hpdT
  have hnl2 : findLease { pd with T1 := t1, T2 := t2 } a = none := hnl
  simp only [addPrefixCore, hpd, Option.isSome_some, if_true, hc2, hnl2,
    Option.isSome_none, Bool.false_eq_true, if_false]
  refine ⟨by trivial, by trivial, by trivial, by trivial, ?_⟩
  unfold findPD
  rw [find?_updateFirst (fun (x : TAddrIA) => x.iaid == iaid) (fun pd => { pd with prefixes := pd.prefixes ++ [mkLease a pref valid len now], duid := d }) (fun x hx => by simpa using hx)]
  rw [hpdT]
  rfl

/-- The PD freshly created by `addPrefixCore` once the lease is appended. -/
def newPDWith (ifn : String) (ifi iaid t1 t2 : Nat) (d : DUID)
    (a : Ip6) (pref valid len now : Nat) : TAddrIA :=
  { ifacename := ifn, ifindex := ifi, iatype := .pd, duid := d, T1 := t1, T2 := t2,
    iaid := iaid, state := .configured, timestamp := now, addrs := [],
    prefixes := [mkLease a pref valid len now] }

theorem addPrefixCore_new (c : TAddrClient) (d : DUID) (ifn : String)
    (ifi iaid t1 t2 : Nat) (a : Ip6) (pref valid len now : Nat)
    (hpd : findPD c iaid = none) :
    (addPrefixCore c d ifn ifi iaid t1 t2 a pref valid len now).1 = true
    ∧ (addPrefixCore c d ifn ifi iaid t1 t2 a pref valid len now).2.duid = c.duid
    ∧ (addPrefixCore c d ifn ifi iaid t1 t2 a pref valid len now).2.ias = c.ias
    ∧ (addPrefixCore c d ifn ifi iaid t1 t2 a pref valid len now).2.tas = c.tas
    ∧ (addPrefixCore c d ifn ifi iaid t1 t2 a pref valid len now).2.pds
        = c.pds ++ [newPDWith ifn ifi iaid t1 t2 d a pref valid len now]
    ∧ findPD (addPrefixCore c d ifn ifi iaid t1 t2 a pref valid len now).2 iaid
        = some (newPDWith ifn ifi iaid t1 t2 d a pref valid len now) := by
  have hpd' : c.pds.find? (fun x => x.iaid == iaid) = none := hpd
  have hlit : ({ mkIA ifn ifi .pd d t1 t2 iaid now with state := .configured } : TAddrIA) = { ifacename := ifn, ifindex := ifi, iatype := .pd, duid := d, T1 := t1, T2 := t2, iaid := iaid, state := .configured, timestamp := now, addrs := [], prefixes := [] } := rfl
  have hself : ((({ ifacename := ifn, ifindex := ifi, iatype := .pd, duid := d, T1 := t1, T2 := t2, iaid := iaid, state := .configured, timestamp := now, addrs := [], prefixes := [] } : TAddrIA)).iaid == iaid) = true := by simp
  have hupd1 : updateFirst (fun x => x.iaid == iaid) (fun pd => { pd with T1 := t1, T2 := t2 }) (c.pds ++ [({ ifacename := ifn, ifindex := ifi, iatype := .pd, duid := d, T1 := t1, T2 := t2, iaid := iaid, state := .configured, timestamp := now, addrs := [], prefixes := [] } : TAddrIA)]) = c.pds ++ [({ ifacename := ifn, ifindex := ifi, iatype := .pd, duid := d, T1 := t1, T2 := t2, iaid := iaid, state := .configured, timestamp := now, addrs := [], prefixes := [] } : TAddrIA)] := by
    rw [updateFirst_append_of_none (fun (x : TAddrIA) => x.iaid == iaid) (fun pd => { pd with T1 := t1, T2 := t2 }) c.pds _ hpd' hself]
  have hfind2 : findPD { c with pds := updateFirst (fun x => x.iaid == iaid) (fun pd => { pd with T1 := t1, T2 := t2 }) (c.pds ++ [({ ifacename := ifn, ifindex := ifi, iatype := .pd, duid := d, T1 := t1, T2 := t2, iaid := iaid, state := .configured, timestamp := now, addrs := [], prefixes := [] } : TAddrIA)]) } iaid = some ({ ifacename := ifn, ifindex := ifi, iatype := .pd, duid := d, T1 := t1, T2 := t2, iaid := iaid, state := .configured, timestamp := now, addrs := [], prefixes := [] } : TAddrIA) := by
    unfold findPD
    show (updateFirst (fun x => x.iaid == iaid) (fun pd => { pd with T1 := t1, T2 := t2 }) (c.pds ++ [({ ifacename := ifn, ifindex := ifi, iatype := .pd, duid := d, T1 := t1, T2 := t2, iaid := iaid, state := .configured, timestamp := now, addrs := [], prefixes := [] } : TAddrIA)])).find? (fun x => x.iaid == iaid) = _
    rw [hupd1, find?_append_of_none _ _ _ hpd', if_pos hself]
  have hnl2 : findLease ({ ifacename := ifn, ifindex := ifi, iatype := .pd, duid := d, T1 := t1, T2 := t2, iaid := iaid, state := .configured, timestamp := now, addrs := [], prefixes := [] } : TAddrIA) a = none := rfl
  simp only [addPrefixCore, hpd, Option.isSome_none, Bool.false_eq_true, if_false,
    hlit, hfind2, hnl2]
  refine ⟨by trivial, by trivial, by trivial, by trivial, ?_, ?_⟩
  · show updateFirst (fun x => x.iaid == iaid) (fun pd => { pd with prefixes := pd.prefixes ++ [mkLease a pref valid len now], duid := d }) (updateFirst (fun x => x.iaid == iaid) (fun pd => { pd with T1 := t1, T2 := t2 }) (c.pds ++ [({ ifacename := ifn, ifindex := ifi, iatype := .pd, duid := d, T1 := t1, T2 := t2, iaid := iaid, state := .configured, timestamp := now, addrs := [], prefixes := [] } : TAddrIA)])) = _
    rw [hupd1]
    rw [updateFirst_append_of_none (fun (x : TAddrIA) => x.iaid == iaid) (fun pd => { pd with prefixes := pd.prefixes ++ [mkLease a pref valid len now], duid := d }) c.pds _ hpd' hself]
    rfl
  · unfold findPD
    show (updateFirst (fun x => x.iaid == iaid) (fun pd => { pd with prefixes := pd.prefixes ++ [mkLease a pref valid len now], duid := d }) (updateFirst (fun x => x.iaid == iaid) (fun pd => { pd with T1 := t1, T2 := t2 }) (c.pds ++ [({ ifacename := ifn, ifindex := ifi, iatype := .pd, duid := d, T1 := t1, T2 := t2, iaid := iaid, state := .configured, timestamp := now, addrs := [], prefixes := [] } : TAddrIA)]))).find? (fun x => x.iaid == iaid) = _
    rw [hupd1]
    rw [updateFirst_append_of_none (fun (x : TAddrIA) => x.iaid == iaid) (fun pd => { pd with prefixes := pd.prefixes ++ [mkLease a pref valid len now], duid := d }) c.pds _ hpd' hself]
    rw [find?_append_of_none _ _ _ hpd', if_pos (by simp)]
    rfl

theorem addPrefixCore_dup (c : TAddrClient) (d : DUID) (ifn : String)
    (ifi iaid t1 t2 : Nat) (a : Ip6) (pref valid len now : Nat) (pd : TAddrIA)
    (pr : TAddrPrefix) (hpd : findPD c iaid = some pd)
    (hl : findLease pd a = some pr) :
    (addPrefixCore c d ifn ifi iaid t1 t2 a pref valid len now).1 = false
    ∧ (addPrefixCore c d ifn ifi iaid t1 t2 a pref valid len now).2.duid = c.duid
    ∧ findPD (addPrefixCore c d ifn ifi iaid t1 t2 a pref valid len now).2 iaid
        = some { pd with T1 := t1, T2 := t2 } := by
  have hpd' : c.pds.find? (fun x => x.iaid == iaid) = some pd := hpd
  have hpdT : (updateFirst (fun x => x.iaid == iaid) (fun pd => { pd with T1 := t1, T2 := t2 }) c.pds).find? (fun x => x.iaid == iaid) = some { pd with T1 := t1, T2 := t2 } := by
    rw [find?_updateFirst (fun (x : TAddrIA) => x.iaid == iaid) (fun pd => { pd with T1 := t1, T2 := t2 }) (fun x hx => by simpa using hx) c.pds, hpd']
    rfl
  have hc2 : findPD { c with pds := updateFirst (fun x => x.iaid == iaid) (fun pd => { pd with T1 := t1, T2 := t2 }) c.pds } iaid = some { pd with T1 := t1, T2 := t2 } := hpdT
  have hl2 : findLease { pd with T1 := t1, T2 := t2 } a = some pr := hl
  simp only [addPrefixCore, hpd, Option.isSome_some, if_true, hc2, hl2]
  exact ⟨by trivial, by trivial, by trivial⟩

/-- C1: with no duplicate present, `addPrefix` returns true after creating the
client (when its DUID is new: the resulting client has exactly the new PD and
nothing else) and the PD (when its IAID is new: created in state `configured`,
keeping the existing state otherwise), overwriting the PD's T1/T2 with the
argument values and appending the prefix lease; a null prefix argument, a null
client on the client-pointer overload, or an already-present lease with the
same address bytes makes the call return false — and even then an existing
PD's T1/T2 are overwritten. -/
theorem addPrefix_correct (m : TAddrMgr) (d : DUID) (ifn : String)
    (ifi iaid t1 t2 : Nat) (a : Ip6) (pref valid len now : Nat)
    (hdup : dupPresent m d iaid a = false) :
    (addPrefix m d ifn ifi iaid t1 t2 (some a) pref valid len now).1 = true
    ∧ (∃ c2, findClient (addPrefix m d ifn ifi iaid t1 t2 (some a) pref valid len now).2 d
          = some c2
        ∧ (findClient m d = none → c2.ias = [] ∧ c2.tas = [] ∧ c2.pds.length = 1)
        ∧ ∃ pd2, findPD c2 iaid = some pd2
          ∧ pd2.T1 = t1 ∧ pd2.T2 = t2 ∧ pd2.duid = d
          ∧ pd2.state = (match chainPD m d iaid with
              | some pdOld => pdOld.state
              | none => IAState.configured)
          ∧ pd2.prefixes = (match chainPD m d iaid with
              | some pdOld => pdOld.prefixes
              | none => []) ++ [mkLease a pref valid len now])
    ∧ (∀ (m2 : TAddrMgr) (d2 : DUID) (f2 : String) (x2 i2 u1 u2 p2 v2 l2 n2 : Nat),
        (addPrefix m2 d2 f2 x2 i2 u1 u2 none p2 v2 l2 n2).1 = false)
    ∧ (∀ (d2 : DUID) (f2 : String) (x2 i2 u1 u2 a2 p2 v2 l2 n2 : Nat),
        addPrefixClient none d2 f2 x2 i2 u1 u2 (some a2) p2 v2 l2 n2 = (false, none))
    ∧ (∀ (m3 : TAddrMgr) (d3 : DUID) (f3 : String) (x3 i3 u1 u2 a3 p3 v3 l3 n3 : Nat),
        dupPresent m3 d3 i3 a3 = true →
          (addPrefix m3 d3 f3 x3 i3 u1 u2 (some a3) p3 v3 l3 n3).1 = false
          ∧ ∃ c3, findClient (addPrefix m3 d3 f3 x3 i3 u1 u2 (some a3) p3 v3 l3 n3).2 d3
              = some c3
            ∧ ∃ pd3, findPD c3 i3 = some pd3 ∧ pd3.T1 = u1 ∧ pd3.T2 = u2) := by
  refine ⟨?_, ?_, ?_, ?_, ?_⟩
  · -- success flag
    rcases hfc : findClient m d with _ | c
    · have hm1 : findClient { m with clients := m.clients ++ [mkClient d] } d
          = some (mkClient d) := by
        unfold findClient
        show (m.clients ++ [mkClient d]).find? (fun x => x.duid == d) = _
        rw [find?_append_of_none _ _ _ hfc, if_pos (by simp [mkClient])]
      have hcore := addPrefixCore_new (mkClient d) d ifn ifi iaid t1 t2 a pref valid
        len now (by rfl)
      simp only [addPrefix, hfc, Option.isSome_none, Bool.false_eq_true, if_false,
        hm1, addPrefixClient]
      exact hcore.1
    · rcases hfpd : findPD c iaid with _ | pd
      · have hcore := addPrefixCore_new c d ifn ifi iaid t1 t2 a pref valid len now hfpd
        simp only [addPrefix, hfc, Option.isSome_some, if_true, addPrefixClient]
        exact hcore.1
      · have hnl : findLease pd a = none := by
          have h := hdup
          simp only [dupPresent, chainPD, hfc, hfpd] at h
          rcases hfl : findLease pd a with _ | pr
          · rfl
          · rw [hfl] at h
            simp at h
        have hcore := addPrefixCore_existing c d ifn ifi iaid t1 t2 a pref valid
          len now pd hfpd hnl
        simp only [addPrefix, hfc, Option.isSome_some, if_true, addPrefixClient]
        exact hcore.1
  · -- the post-state chain
    rcases hfc : findClient m d with _ | c
    · have hc' : m.clients.find? (fun x => x.duid == d) = none := hfc
      have hm1 : findClient { m with clients := m.clients ++ [mkClient d] } d
          = some (mkClient d) := by
        unfold findClient
        show (m.clients ++ [mkClient d]).find? (fun x => x.duid == d) = _
        rw [find?_append_of_none _ _ _ hfc, if_pos (by simp [mkClient])]
      have hcore := addPrefixCore_new (mkClient d) d ifn ifi iaid t1 t2 a pref valid
        len now (by rfl)
      have hchain : chainPD m d iaid = none := by simp [chainPD, hfc]
      simp only [addPrefix, hfc, Option.isSome_none, Bool.false_eq_true, if_false,
        hm1, addPrefixClient, hchain]
      refine ⟨(addPrefixCore (mkClient d) d ifn ifi iaid t1 t2 a pref valid len now).2,
        ?_, ?_, ?_⟩
      · unfold findClient
        show ((updateFirst (fun x => x.duid == d) _ (m.clients ++ [mkClient d]))).find? (fun x => x.duid == d) = _
        rw [updateFirst_append_of_none (fun (x : TAddrClient) => x.duid == d) _ m.clients _ hc' (by simp [mkClient])]
        rw [find?_append_of_none _ _ _ hc']
        rw [if_pos (by rw [hcore.2.1]; simp [mkClient])]
      · intro _
        refine ⟨?_, ?_, ?_⟩
        · rw [hcore.2.2.1]
          rfl
        · rw [hcore.2.2.2.1]
          rfl
        · rw [hcore.2.2.2.2.1]
          simp [mkClient]
      · refine ⟨_, hcore.2.2.2.2.2, rfl, rfl, rfl, rfl, rfl⟩
    · have hc' : m.clients.find? (fun x => x.duid == d) = some c := hfc
      have hcd : (c.duid == d) = true := by simpa using List.find?_some hc'
      have hchain : chainPD m d iaid = findPD c iaid := by simp [chainPD, hfc]
      rcases hfpd : findPD c iaid with _ | pd
      · have hcore := addPrefixCore_new c d ifn ifi iaid t1 t2 a pref valid len now hfpd
        simp only [addPrefix, hfc, Option.isSome_some, if_true, addPrefixClient,
          hchain, hfpd]
        refine ⟨(addPrefixCore c d ifn ifi iaid t1 t2 a pref valid len now).2, ?_, ?_, ?_⟩
        · unfold findClient
          exact find?_updateFirst_const _ _ _ c hc' (by rw [hcore.2.1]; exact hcd)
        · intro hcontra
          exact absurd hcontra (by simp)
        · refine ⟨_, hcore.2.2.2.2.2, rfl, rfl, rfl, rfl, rfl⟩
      · have hnl : findLease pd a = none := by
          have h := hdup
          simp only [dupPresent, chainPD, hfc, hfpd] at h
          rcases hfl : findLease pd a with _ | pr
          · rfl
          · rw [hfl] at h
            simp at h
        have hcore := addPrefixCore_existing c d ifn ifi iaid t1 t2 a pref valid
          len now pd hfpd hnl
        simp only [addPrefix, hfc, Option.isSome_some, if_true, addPrefixClient,
          hchain, hfpd]
        refine ⟨(addPrefixCore c d ifn ifi iaid t1 t2 a pref valid len now).2, ?_, ?_, ?_⟩
        · unfold findClient
          exact find?_updateFirst_const _ _ _ c hc' (by rw [hcore.2.1]; exact hcd)
        · intro hcontra
          exact absurd hcontra (by simp)
        · refine ⟨_, hcore.2.2.2.2, rfl, rfl, rfl, rfl, rfl⟩
  · -- null prefix fails (after any client creation)
    intro m2 d2 f2 x2 i2 u1 u2 p2 v2 l2 n2
    rcases hfc : findClient (if (findClient m2 d2).isSome then m2 else { m2 with clients := m2.clients ++ [mkClient d2] }) d2 with _ | c2
    · simp [addPrefix, hfc, addPrefixClient]
    · simp [addPrefix, hfc, addPrefixClient]
  · -- null client on the client overload fails
    intro d2 f2 x2 i2 u1 u2 a2 p2 v2 l2 n2
    rfl
  · -- duplicate fails, T1/T2 still overwritten
    intro m3 d3 f3 x3 i3 u1 u2 a3 p3 v3 l3 n3 hdup3
    rcases hfc : findClient m3 d3 with _ | c3
    · have h := hdup3
      simp only [dupPresent, chainPD, hfc] at h
      exact absurd h (by simp)
    · have hc' : m3.clients.find? (fun x => x.duid == d3) = some c3 := hfc
      have hcd : (c3.duid == d3) = true := by simpa using List.find?_some hc'
      have hchain : chainPD m3 d3 i3 = findPD c3 i3 := by simp [chainPD, hfc]
      rcases hfpd : findPD c3 i3 with _ | pd3
      · have h := hdup3
        simp only [dupPresent, chainPD, hfc, hfpd] at h
        exact absurd h (by simp)
      · rcases hfl : findLease pd3 a3 with _ | pr3
        · have h := hdup3
          simp only [dupPresent, chainPD, hfc, hfpd, hfl] at h
          exact absurd h (by simp)
        · have hcore := addPrefixCore_dup c3 d3 f3 x3 i3 u1 u2 a3 p3 v3 l3 n3 pd3 pr3
            hfpd hfl
          constructor
          · simp only [addPrefix, hfc, Option.isSome_some, if_true, addPrefixClient]
            exact hcore.1
          · simp only [addPrefix, hfc, Option.isSome_some, if_true, addPrefixClient]
            refine ⟨(addPrefixCore c3 d3 f3 x3 i3 u1 u2 a3 p3 v3 l3 n3).2, ?_, ?_⟩
            · unfold findClient
              exact find?_updateFirst_const _ _ _ c3 hc' (by rw [hcore.2.1]; exact hcd)
            · exact ⟨_, hcore.2.2, rfl, rfl⟩

/-- An empty manager fixture. -/
def mgrEmpty : TAddrMgr :=
  { clients := [], replayDetectionValue := 0, deleteEmptyClient := true }

/-- Witness for C1 starting from an empty store (spec scenario 1): no
duplicate is present, the call succeeds, and the fresh client carries exactly
one PD with the new lease. -/
theorem addPrefix_correct_witness :
    (addPrefix mgrEmpty [7] "eth0" 1 42 1800 2880 (some 99) 3600 7200 48 100).1 = true
    ∧ ∃ c2, findClient (addPrefix mgrEmpty [7] "eth0" 1 42 1800 2880 (some 99) 3600 7200 48 100).2 [7]
        = some c2
      ∧ (findClient mgrEmpty [7] = none → c2.ias = [] ∧ c2.tas = [] ∧ c2.pds.length = 1) := by
  have h := addPrefix_correct mgrEmpty [7] "eth0" 1 42 1800 2880 99 3600 7200 48 100
    (by decide)
  rcases h.2.1 with ⟨c2, hfind, hnew, _⟩
  exact ⟨h.1, c2, hfind, hnew⟩

/-! ## Claim C9 — repeating a successful addPrefix is a rejected no-op -/

theorem addPrefix_dup_noop (m2 : TAddrMgr) (d : DUID) (ifn : String)
    (ifi iaid t1 t2 : Nat) (a : Ip6) (pref valid len now2 : Nat)
    (cF : TAddrClient) (pdF : TAddrIA) (prF : TAddrPrefix)
    (hfc : findClient m2 d = some cF) (hfpd : findPD cF iaid = some pdF)
    (hfl : findLease pdF a = some prF) (hT1 : pdF.T1 = t1) (hT2 : pdF.T2 = t2) :
    addPrefix m2 d ifn ifi iaid t1 t2 (some a) pref valid len now2 = (false, m2) := by
  have hfpd' : cF.pds.find? (fun x => x.iaid == iaid) = some pdF := hfpd
  have hsetT : ({ pdF with T1 := t1, T2 := t2 } : TAddrIA) = pdF := by
    rw [← hT1, ← hT2]
  have hupd : updateFirst (fun x => x.iaid == iaid) (fun pd => { pd with T1 := t1, T2 := t2 }) cF.pds = cF.pds := by
    apply updateFirst_id
    intro x hx
    rw [hfpd'] at hx
    have hx2 := Option.some.inj hx
    subst hx2
    exact hsetT
  have hmid : findPD { cF with pds := updateFirst (fun x => x.iaid == iaid) (fun pd => { pd with T1 := t1, T2 := t2 }) cF.pds } iaid = some pdF := by
    show (updateFirst (fun x => x.iaid == iaid) (fun pd => { pd with T1 := t1, T2 := t2 }) cF.pds).find? (fun x => x.iaid == iaid) = some pdF
    rw [hupd]
    exact hfpd'
  have hfl2 : (findLease pdF a).isSome = true := by rw [hfl]; rfl
  have hc' : m2.clients.find? (fun x => x.duid == d) = some cF := hfc
  have hceq : ({ cF with pds := updateFirst (fun x => x.iaid == iaid) (fun pd => { pd with T1 := t1, T2 := t2 }) cF.pds } : TAddrClient) = cF := by
    rw [hupd]
  have hupdc : updateFirst (fun x => x.duid == d) (fun _ => ({ cF with pds := updateFirst (fun x => x.iaid == iaid) (fun pd => { pd with T1 := t1, T2 := t2 }) cF.pds } : TAddrClient)) m2.clients = m2.clients := by
    rw [hceq]
    apply updateFirst_id
    intro x hx
    rw [hc'] at hx
    have hx2 := Option.some.inj hx
    subst hx2
    rfl
  simp only [addPrefix, hfc, Option.isSome_some, if_true, addPrefixClient,
    addPrefixCore, hfpd, hmid, hfl2, hupdc]

/-- C9: a state reached by a successful `addPrefix` rejects the exact same
call: the repeat returns false and the store is unchanged (the T1/T2
overwrite re-applies the values already stored). -/
theorem addPrefix_repeat_noop (m : TAddrMgr) (d : DUID) (ifn : String)
    (ifi iaid t1 t2 : Nat) (a : Ip6) (pref valid len now now2 : Nat)
    (hsucc : (addPrefix m d ifn ifi iaid t1 t2 (some a) pref valid len now).1 = true) :
    addPrefix (addPrefix m d ifn ifi iaid t1 t2 (some a) pref valid len now).2
        d ifn ifi iaid t1 t2 (some a) pref valid len now2
      = (false, (addPrefix m d ifn ifi iaid t1 t2 (some a) pref valid len now).2) := by
  rcases hfc : findClient m d with _ | c
  · -- the first call created the client
    have hc' : m.clients.find? (fun x => x.duid == d) = none := hfc
    have hm1 : findClient { m with clients := m.clients ++ [mkClient d] } d
        = some (mkClient d) := by
      unfold findClient
      show (m.clients ++ [mkClient d]).find? (fun x => x.duid == d) = _
      rw [find?_append_of_none _ _ _ hc', if_pos (by simp [mkClient])]
    have hcore := addPrefixCore_new (mkClient d) d ifn ifi iaid t1 t2 a pref valid
      len now (by rfl)
    have hrun : addPrefix m d ifn ifi iaid t1 t2 (some a) pref valid len now
        = ((addPrefixCore (mkClient d) d ifn ifi iaid t1 t2 a pref valid len now).1, { m with clients := updateFirst (fun x => x.duid == d) (fun _ => (addPrefixCore (mkClient d) d ifn ifi iaid t1 t2 a pref valid len now).2) (m.clients ++ [mkClient d]) }) := by
      simp only [addPrefix, hfc, Option.isSome_none, Bool.false_eq_true, if_false,
        hm1, addPrefixClient]
    have hclients : updateFirst (fun x => x.duid == d) (fun _ => (addPrefixCore (mkClient d) d ifn ifi iaid t1 t2 a pref valid len now).2) (m.clients ++ [mkClient d]) = m.clients ++ [(addPrefixCore (mkClient d) d ifn ifi iaid t1 t2 a pref valid len now).2] := by
      rw [updateFirst_append_of_none (fun (x : TAddrClient) => x.duid == d) _ m.clients _ hc' (by simp [mkClient])]
    have hfcr : findClient (addPrefix m d ifn ifi iaid t1 t2 (some a) pref valid len now).2 d
        = some (addPrefixCore (mkClient d) d ifn ifi iaid t1 t2 a pref valid len now).2 := by
      rw [hrun]
      unfold findClient
      show (updateFirst (fun x => x.duid == d) _ (m.clients ++ [mkClient d])).find? (fun x => x.duid == d) = _
      rw [hclients, find?_append_of_none _ _ _ hc']
      rw [if_pos (by rw [hcore.2.1]; simp [mkClient])]
    have hflr : findLease (newPDWith ifn ifi iaid t1 t2 d a pref valid len now) a
        = some (mkLease a pref valid len now) := by
      show [mkLease a pref valid len now].find? (fun x => x.addr == a) = _
      rw [find?_cons_eq, if_pos (by simp [mkLease])]
    exact addPrefix_dup_noop _ d ifn ifi iaid t1 t2 a pref valid len now2
      _ _ _ hfcr hcore.2.2.2.2.2 hflr rfl rfl
  · have hc' : m.clients.find? (fun x => x.duid == d) = some c := hfc
    have hcd : (c.duid == d) = true := by simpa using List.find?_some hc'
    rcases hfpd : findPD c iaid with _ | pd
    · -- the first call created the PD inside the existing client
      have hcore := addPrefixCore_new c d ifn ifi iaid t1 t2 a pref valid len now hfpd
      have hrun : addPrefix m d ifn ifi iaid t1 t2 (some a) pref valid len now
          = ((addPrefixCore c d ifn ifi iaid t1 t2 a pref valid len now).1, { m with clients := updateFirst (fun x => x.duid == d) (fun _ => (addPrefixCore c d ifn ifi iaid t1 t2 a pref valid len now).2) m.clients }) := by
        simp only [addPrefix, hfc, Option.isSome_some, if_true, addPrefixClient]
      have hfcr : findClient (addPrefix m d ifn ifi iaid t1 t2 (some a) pref valid len now).2 d
          = some (addPrefixCore c d ifn ifi iaid t1 t2 a pref valid len now).2 := by
        rw [hrun]
        unfold findClient
        exact find?_updateFirst_const _ _ _ c hc' (by rw [hcore.2.1]; exact hcd)
      have hflr : findLease (newPDWith ifn ifi iaid t1 t2 d a pref valid len now) a
          = some (mkLease a pref valid len now) := by
        show [mkLease a pref valid len now].find? (fun x => x.addr == a) = _
        rw [find?_cons_eq, if_pos (by simp [mkLease])]
      exact addPrefix_dup_noop _ d ifn ifi iaid t1 t2 a pref valid len now2
        _ _ _ hfcr hcore.2.2.2.2.2 hflr rfl rfl
    · rcases hfl : findLease pd a with _ | pr
      · -- the first call appended the lease to the existing PD
        have hnl : findLease pd a = none := hfl
        have hcore := addPrefixCore_existing c d ifn ifi iaid t1 t2 a pref valid
          len now pd hfpd hnl
        have hnl' : pd.prefixes.find? (fun x => x.addr == a) = none := hnl
        have hrun : addPrefix m d ifn ifi iaid t1 t2 (some a) pref valid len now
            = ((addPrefixCore c d ifn ifi iaid t1 t2 a pref valid len now).1, { m with clients := updateFirst (fun x => x.duid == d) (fun _ => (addPrefixCore c d ifn ifi iaid t1 t2 a pref valid len now).2) m.clients }) := by
          simp only [addPrefix, hfc, Option.isSome_some, if_true, addPrefixClient]
        have hfcr : findClient (addPrefix m d ifn ifi iaid t1 t2 (some a) pref valid len now).2 d
            = some (addPrefixCore c d ifn ifi iaid t1 t2 a pref valid len now).2 := by
          rw [hrun]
          unfold findClient
          exact find?_updateFirst_const _ _ _ c hc' (by rw [hcore.2.1]; exact hcd)
        have hflr : findLease ({ pd with T1 := t1, T2 := t2, duid := d, prefixes := pd.prefixes ++ [mkLease a pref valid len now] } : TAddrIA) a
            = some (mkLease a pref valid len now) := by
          show (pd.prefixes ++ [mkLease a pref valid len now]).find? (fun x => x.addr == a) = _
          rw [find?_append_of_none _ _ _ hnl', if_pos (by simp [mkLease])]
        exact addPrefix_dup_noop _ d ifn ifi iaid t1 t2 a pref valid len now2
          _ _ _ hfcr hcore.2.2.2.2 hflr rfl rfl
      · -- the first call was itself a rejected duplicate: contradiction
        have hcore := addPrefixCore_dup c d ifn ifi iaid t1 t2 a pref valid len now
          pd pr hfpd hfl
        have hrun : (addPrefix m d ifn ifi iaid t1 t2 (some a) pref valid len now).1
            = (addPrefixCore c d ifn ifi iaid t1 t2 a pref valid len now).1 := by
          simp only [addPrefix, hfc, Option.isSome_some, if_true, addPrefixClient]
        rw [hrun, hcore.1] at hsucc
        cases hsucc

/-- Witness for C9: the concrete scenario-1 call on the empty store succeeds,
and repeating it verbatim returns false with the store unchanged. -/
theorem addPrefix_repeat_noop_witness :
    addPrefix (addPrefix mgrEmpty [7] "eth0" 1 42 1800 2880 (some 99) 3600 7200 48 100).2
        [7] "eth0" 1 42 1800 2880 (some 99) 3600 7200 48 100
      = (false, (addPrefix mgrEmpty [7] "eth0" 1 42 1800 2880 (some 99) 3600 7200 48 100).2) :=
  addPrefix_repeat_noop mgrEmpty [7] "eth0" 1 42 1800 2880 99 3600 7200 48 100 100
    (by decide)

/-! ## Claim C7 — interface reconciliation visits every assignment -/

theorem updateIAList_ok_iff (n2i : String → Option Nat) (i2n : Nat → Option String) :
    ∀ l : List TAddrIA, (updateIAList n2i i2n l).1 = true
      ↔ ∀ ia ∈ l, (updateInterfacesInfoIA ia n2i i2n).1 = true := by
  intro l
  induction l with
  | nil => simp [updateIAList]
  | cons ia rest ih =>
    by_cases h : (updateInterfacesInfoIA ia n2i i2n).1 = true
    · simp only [updateIAList, h, if_true, List.mem_cons]
      constructor
      · intro hr x hx
        rcases hx with hx | hx
        · subst hx; exact h
        · exact (ih.mp hr) x hx
      · intro hall
        exact ih.mpr (fun x hx => hall x (Or.inr hx))
    · simp only [Bool.not_eq_true] at h
      simp only [updateIAList, h, Bool.false_eq_true, if_false]
      constructor
      · intro hcontra
        exact absurd hcontra (by simp)
      · intro hall
        have := hall ia (List.mem_cons_self ia rest)
        rw [h] at this
        exact absurd this (by simp)

theorem updateIAList_map (n2i : String → Option Nat) (i2n : Nat → Option String) :
    ∀ l : List TAddrIA, (updateIAList n2i i2n l).1 = true →
      (updateIAList n2i i2n l).2 = l.map (fun ia => (updateInterfacesInfoIA ia n2i i2n).2) := by
  intro l
  induction l with
  | nil => intro _; rfl
  | cons ia rest ih =>
    intro h
    by_cases hi : (updateInterfacesInfoIA ia n2i i2n).1 = true
    · simp only [updateIAList, hi, if_true] at h ⊢
      rw [List.map_cons, ih h]
    · simp only [Bool.not_eq_true] at hi
      simp only [updateIAList, hi, Bool.false_eq_true, if_false] at h

theorem updateClientInfo_flag (c : TAddrClient) (n2i : String → Option Nat)
    (i2n : Nat → Option String) :
    (updateClientInfo c n2i i2n).1
      = ((updateIAList n2i i2n c.ias).1 && (updateIAList n2i i2n c.tas).1
          && (updateIAList n2i i2n c.pds).1) := by
  unfold updateClientInfo
  by_cases h1 : (updateIAList n2i i2n c.ias).1 = true
  · by_cases h2 : (updateIAList n2i i2n c.tas).1 = true
    · simp [h1, h2]
    · simp only [Bool.not_eq_true] at h2
      simp [h1, h2]
  · simp only [Bool.not_eq_true] at h1
    simp [h1]

theorem updateClientInfo_ok_iff (c : TAddrClient) (n2i : String → Option Nat)
    (i2n : Nat → Option String) :
    (updateClientInfo c n2i i2n).1 = true
      ↔ ∀ ia ∈ clientAssignments c, (updateInterfacesInfoIA ia n2i i2n).1 = true := by
  rw [updateClientInfo_flag]
  simp only [Bool.and_eq_true, updateIAList_ok_iff, clientAssignments, List.mem_append]
  constructor
  · rintro ⟨⟨hi, ht⟩, hp⟩ ia hia
    rcases hia with (hia | hia) | hia
    · exact hi ia hia
    · exact ht ia hia
    · exact hp ia hia
  · intro hall
    exact ⟨⟨fun ia hia => hall ia (Or.inl (Or.inl hia)),
      fun ia hia => hall ia (Or.inl (Or.inr hia))⟩,
      fun ia hia => hall ia (Or.inr hia)⟩

theorem updateClientInfo_map (c : TAddrClient) (n2i : String → Option Nat)
    (i2n : Nat → Option String) (h : (updateClientInfo c n2i i2n).1 = true) :
    (updateClientInfo c n2i i2n).2
      = { c with ias := c.ias.map (fun ia => (updateInterfacesInfoIA ia n2i i2n).2),
                 tas := c.tas.map (fun ia => (updateInterfacesInfoIA ia n2i i2n).2),
                 pds := c.pds.map (fun ia => (updateInterfacesInfoIA ia n2i i2n).2) } := by
  rw [updateClientInfo_flag] at h
  simp only [Bool.and_eq_true] at h
  rcases h with ⟨⟨h1, h2⟩, h3⟩
  unfold updateClientInfo
  simp only [h1, h2, h3, if_true]
  rw [updateIAList_map n2i i2n c.ias h1, updateIAList_map n2i i2n c.tas h2,
    updateIAList_map n2i i2n c.pds h3]

theorem updateClientsInfo_ok_iff (n2i : String → Option Nat)
    (i2n : Nat → Option String) :
    ∀ l : List TAddrClient, (updateClientsInfo n2i i2n l).1 = true
      ↔ ∀ c ∈ l, (updateClientInfo c n2i i2n).1 = true := by
  intro l
  induction l with
  | nil => simp [updateClientsInfo]
  | cons c rest ih =>
    by_cases h : (updateClientInfo c n2i i2n).1 = true
    · simp only [updateClientsInfo, h, if_true, List.mem_cons]
      constructor
      · intro hr x hx
        rcases hx with hx | hx
        · subst hx; exact h
        · exact (ih.mp hr) x hx
      · intro hall
        exact ih.mpr (fun x hx => hall x (Or.inr hx))
    · simp only [Bool.not_eq_true] at h
      simp only [updateClientsInfo, h, Bool.false_eq_true, if_false]
      constructor
      · intro hcontra
        exact absurd hcontra (by simp)
      · intro hall
        have := hall c (List.mem_cons_self c rest)
        rw [h] at this
        exact absurd this (by simp)

theorem updateClientsInfo_map (n2i : String → Option Nat)
    (i2n : Nat → Option String) :
    ∀ l : List TAddrClient, (updateClientsInfo n2i i2n l).1 = true →
      (updateClientsInfo n2i i2n l).2
        = l.map (fun c => (updateClientInfo c n2i i2n).2) := by
  intro l
  induction l with
  | nil => intro _; rfl
  | cons c rest ih =>
    intro h
    by_cases hc : (updateClientInfo c n2i i2n).1 = true
    · simp only [updateClientsInfo, hc, if_true] at h ⊢
      rw [List.map_cons, ih h]
    · simp only [Bool.not_eq_true] at hc
      simp only [updateClientsInfo, hc, Bool.false_eq_true, if_false] at h

/-- C7: `updateInterfacesInfo` succeeds exactly when every assignment of every
client (IA, TA and PD lists alike) reconciles against the two mappings; on
success every assignment has been rewritten by the per-assignment rule, which
is: an empty interface name is filled in from the index-to-name mapping
(failing when the index is unknown), and a non-empty name must appear in the
name-to-index mapping (failing otherwise), the stored index being updated in
place when it differs. -/
theorem updateInterfacesInfo_correct (m : TAddrMgr) (n2i : String → Option Nat)
    (i2n : Nat → Option String) :
    ((updateInterfacesInfo m n2i i2n).1 = true
      ↔ ∀ c ∈ m.clients, ∀ ia ∈ clientAssignments c,
          (updateInterfacesInfoIA ia n2i i2n).1 = true)
    ∧ ((updateInterfacesInfo m n2i i2n).1 = true →
        (updateInterfacesInfo m n2i i2n).2.clients
          = m.clients.map (fun c =>
              { c with ias := c.ias.map (fun ia => (updateInterfacesInfoIA ia n2i i2n).2),
                       tas := c.tas.map (fun ia => (updateInterfacesInfoIA ia n2i i2n).2),
                       pds := c.pds.map (fun ia => (updateInterfacesInfoIA ia n2i i2n).2) }))
    ∧ (∀ ia : TAddrIA, ia.ifacename.length = 0 →
        (i2n ia.ifindex = none → updateInterfacesInfoIA ia n2i i2n = (false, ia))
        ∧ (∀ nm, i2n ia.ifindex = some nm →
            updateInterfacesInfoIA ia n2i i2n = (true, { ia with ifacename := nm })))
    ∧ (∀ ia : TAddrIA, ia.ifacename.length ≠ 0 →
        (n2i ia.ifacename = none → updateInterfacesInfoIA ia n2i i2n = (false, ia))
        ∧ (∀ idx, n2i ia.ifacename = some idx →
            updateInterfacesInfoIA ia n2i i2n
              = (true, if ia.ifindex ≠ idx then { ia with ifindex := idx } else ia))) := by
  refine ⟨?_, ?_, ?_, ?_⟩
  · show ((updateClientsInfo n2i i2n m.clients).1 = true ↔ _)
    rw [updateClientsInfo_ok_iff]
    constructor
    · intro hall c hc
      exact (updateClientInfo_ok_iff c n2i i2n).mp (hall c hc)
    · intro hall c hc
      exact (updateClientInfo_ok_iff c n2i i2n).mpr (hall c hc)
  · intro h
    have h2 : (updateClientsInfo n2i i2n m.clients).1 = true := h
    show (updateClientsInfo n2i i2n m.clients).2 = _
    rw [updateClientsInfo_map n2i i2n m.clients h2]
    apply List.map_congr_left
    intro c hc
    exact updateClientInfo_map c n2i i2n
      ((updateClientsInfo_ok_iff n2i i2n m.clients).mp h2 c hc)
  · intro ia hlen
    have hcond : (ia.ifacename.length == 0) = true := by simp [hlen]
    constructor
    · intro hi
      simp [updateInterfacesInfoIA, hcond, hi]
    · intro nm hi
      simp [updateInterfacesInfoIA, hcond, hi]
  · intro ia hlen
    have hcond : (ia.ifacename.length == 0) = false := by simp [hlen]
    constructor
    · intro hi
      simp [updateInterfacesInfoIA, hcond, hi]
    · intro idx hi
      by_cases hix : ia.ifindex = idx
      · simp [updateInterfacesInfoIA, hcond, hi, hix]
      · simp [updateInterfacesInfoIA, hcond, hi, hix]

/-- A fixture with a single legacy assignment: index 7, empty interface
name (the spec reconciliation example). -/
def mgrLegacy : TAddrMgr :=
  { clients :=
      [ { duid := [9],
          ias := [{ ifacename := "", ifindex := 7, iatype := .ia, duid := [9],
                    T1 := 1, T2 := 2, iaid := 5, state := .confirmMe,
                    timestamp := 0, addrs := [], prefixes := [] }],
          tas := [], pds := [] } ],
    replayDetectionValue := 0,
    deleteEmptyClient := true }

/-- Witness for C7: at the legacy fixture with mapping 7 → eth0, the per-IA
rule fills in the name, and the whole update succeeds with the name set. -/
theorem updateInterfacesInfo_correct_witness :
    (updateInterfacesInfo mgrLegacy
        (fun s => if s = "eth0" then some 7 else none)
        (fun n => if n = 7 then some "eth0" else none)).1 = true
    ∧ updateInterfacesInfoIA
        { ifacename := "", ifindex := 7, iatype := .ia, duid := [9],
          T1 := 1, T2 := 2, iaid := 5, state := .confirmMe,
          timestamp := 0, addrs := [], prefixes := [] }
        (fun s => if s = "eth0" then some 7 else none)
        (fun n => if n = 7 then some "eth0" else none)
      = (true, { ifacename := "eth0", ifindex := 7, iatype := .ia, duid := [9],
                 T1 := 1, T2 := 2, iaid := 5, state := .confirmMe,
                 timestamp := 0, addrs := [], prefixes := [] }) := by
  have h := updateInterfacesInfo_correct mgrLegacy
    (fun s => if s = "eth0" then some 7 else none)
    (fun n => if n = 7 then some "eth0" else none)
  constructor
  · exact h.1.mpr (by decide)
  · exact (h.2.2.1
      { ifacename := "", ifindex := 7, iatype := .ia, duid := [9],
        T1 := 1, T2 := 2, iaid := 5, state := .confirmMe,
        timestamp := 0, addrs := [], prefixes := [] } (by decide)).2 "eth0" (by decide)

/-! ## Claim C4 — states and tentative flags after a snapshot load -/

theorem stepPD_inv (vp : Ip6 → Bool) (t1 t2 iaid : Nat) (ifn : String)
    (ifi now : Nat) (st : Option TAddrIA) (l : XLine)
    (h : ∀ pd, st = some pd → pd.state = IAState.confirmMe
      ∧ ∀ p ∈ pd.prefixes, p.tentative = AddrStatus.no) :
    ∀ pd, stepPD vp t1 t2 iaid ifn ifi now st l = some pd →
      pd.state = IAState.confirmMe ∧ ∀ p ∈ pd.prefixes, p.tentative = AddrStatus.no := by
  intro pd hpd
  cases l with
  | duidLine d =>
    simp only [stepPD, Option.some.injEq] at hpd
    subst hpd
    exact ⟨rfl, by intro p hp; cases hp⟩
  | addrPrefixLine ts pref valid la body =>
    cases st with
    | none =>
      simp only [stepPD] at hpd
      exact absurd hpd (by simp)
    | some pd0 =>
      rcases h pd0 rfl with ⟨hs, hp⟩
      rcases hparse : parseAddrPrefixLine ts pref valid la body with _ | lease
      · simp only [stepPD, hparse, Option.some.injEq] at hpd
        subst hpd
        exact ⟨hs, hp⟩
      · simp only [stepPD, hparse] at hpd
        by_cases hv : vp lease.addr = true
        · rw [if_pos hv] at hpd
          simp only [Option.some.injEq] at hpd
          subst hpd
          refine ⟨hs, ?_⟩
          intro p hmem
          rcases List.mem_append.mp hmem with hmem | hmem
          · exact hp p hmem
          · rcases List.mem_singleton.mp hmem with rfl
            rfl
        · rw [if_neg hv] at hpd
          simp only [Option.some.injEq] at hpd
          subst hpd
          exact ⟨hs, hp⟩
  | addrMgrOpen => exact h pd hpd
  | addrMgrClose => exact h pd hpd
  | timestampTag ts => exact h pd hpd
  | replayDetection v => exact h pd hpd
  | addrClientOpen => exact h pd hpd
  | addrClientClose => exact h pd hpd
  | addrIAOpen t1 t2 iaid ifn ifi => exact h pd hpd
  | addrIAClose => exact h pd hpd
  | addrPDOpen t1 t2 iaid ifn ifi => exact h pd hpd
  | addrPDClose => exact h pd hpd
  | addrTAOpen => exact h pd hpd
  | addrTAClose => exact h pd hpd
  | addrAddrLine ts pref valid pa body => exact h pd hpd
  | other => exact h pd hpd

theorem parseAddrPDaux_inv (vp : Ip6 → Bool) (t1 t2 iaid : Nat) (ifn : String)
    (ifi now : Nat) :
    ∀ (l : List XLine) (st : Option TAddrIA),
      (∀ pd, st = some pd → pd.state = IAState.confirmMe
        ∧ ∀ p ∈ pd.prefixes, p.tentative = AddrStatus.no) →
      ∀ pd, (parseAddrPDaux vp t1 t2 iaid ifn ifi now st l).1 = some pd →
        pd.state = IAState.confirmMe
        ∧ ∀ p ∈ pd.prefixes, p.tentative = AddrStatus.no := by
  intro l
  induction l with
  | nil =>
    intro st h pd hpd
    cases hpd
  | cons x rest ih =>
    intro st h pd hpd
    cases x
    case addrPDClose => exact h pd hpd
    all_goals
      exact ih _ (stepPD_inv vp t1 t2 iaid ifn ifi now st _ h) pd hpd

theorem stepIA_inv (va : Ip6 → Bool) (t1 t2 iaid : Nat) (ifn : String)
    (ifi now : Nat) (st : Option TAddrIA) (l : XLine)
    (h : ∀ ia, st = some ia → ia.state = IAState.notConfigured
      ∧ ∀ x ∈ ia.addrs, x.tentative = AddrStatus.no) :
    ∀ ia, stepIA va t1 t2 iaid ifn ifi now st l = some ia →
      ia.state = IAState.notConfigured
      ∧ ∀ x ∈ ia.addrs, x.tentative = AddrStatus.no := by
  intro ia hia
  cases l with
  | duidLine d =>
    simp only [stepIA, Option.some.injEq] at hia
    subst hia
    exact ⟨rfl, by intro x hx; cases hx⟩
  | addrAddrLine ts pref valid pa body =>
    cases st with
    | none =>
      simp only [stepIA] at hia
      exact absurd hia (by simp)
    | some ia0 =>
      rcases h ia0 rfl with ⟨hs, hp⟩
      rcases hparse : parseAddrAddrLine ts pref valid pa body with _ | lease
      · simp only [stepIA, hparse, Option.some.injEq] at hia
        subst hia
        exact ⟨hs, hp⟩
      · simp only [stepIA, hparse] at hia
        by_cases hv : va lease.addr = true
        · rw [if_pos hv] at hia
          simp only [Option.some.injEq] at hia
          subst hia
          refine ⟨hs, ?_⟩
          intro x hmem
          rcases List.mem_append.mp hmem with hmem | hmem
          · exact hp x hmem
          · rcases List.mem_singleton.mp hmem with rfl
            rfl
        · rw [if_neg hv] at hia
          simp only [Option.some.injEq] at hia
          subst hia
          exact ⟨hs, hp⟩
  | addrMgrOpen => exact h ia hia
  | addrMgrClose => exact h ia hia
  | timestampTag ts => exact h ia hia
  | replayDetection v => exact h ia hia
  | addrClientOpen => exact h ia hia
  | addrClientClose => exact h ia hia
  | addrIAOpen t1 t2 iaid ifn ifi => exact h ia hia
  | addrIAClose => exact h ia hia
  | addrPDOpen t1 t2 iaid ifn ifi => exact h ia hia
  | addrPDClose => exact h ia hia
  | addrTAOpen => exact h ia hia
  | addrTAClose => exact h ia hia
  | addrPrefixLine ts pref valid la body => exact h ia hia
  | other => exact h ia hia

theorem parseAddrIAaux_inv (va : Ip6 → Bool) (t1 t2 iaid : Nat) (ifn : String)
    (ifi now : Nat) :
    ∀ (l : List XLine) (st : Option TAddrIA),
      (∀ ia, st = some ia → ia.state = IAState.notConfigured
        ∧ ∀ x ∈ ia.addrs, x.tentative = AddrStatus.no) →
      ∀ ia, (parseAddrIAaux va t1 t2 iaid ifn ifi now st l).1 = some ia →
        ia.state = IAState.notConfigured
        ∧ ∀ x ∈ ia.addrs, x.tentative = AddrStatus.no := by
  intro l
  induction l with
  | nil =>
    intro st h ia hia
    cases hia
  | cons x rest ih =>
    intro st h ia hia
    cases x
    case addrIAClose => exact h ia hia
    all_goals
      exact ih _ (stepIA_inv va t1 t2 iaid ifn ifi now st _ h) ia hia

/-- C4 (amended): an assignment produced by the snapshot reader is in state
`confirm-me` when it is a PD — `parseAddrPD` sets that state explicitly — but
an IA produced by `parseAddrIA` stays in the constructor's initial state
`not-configured` (no `setState` call on that path); in both, a freshly parsed
lease starts tentative-unknown, and every lease actually accepted into the
assignment has been set non-tentative. -/
theorem snapshot_load_states (va vp : Ip6 → Bool) (t1 t2 iaid : Nat)
    (ifn : String) (ifi now : Nat) (lA lP : List XLine) (ia pd : TAddrIA)
    (hIA : (parseAddrIAaux va t1 t2 iaid ifn ifi now none lA).1 = some ia)
    (hPD : (parseAddrPDaux vp t1 t2 iaid ifn ifi now none lP).1 = some pd) :
    (ia.state = IAState.notConfigured ∧ ∀ x ∈ ia.addrs, x.tentative = AddrStatus.no)
    ∧ (pd.state = IAState.confirmMe ∧ ∀ p ∈ pd.prefixes, p.tentative = AddrStatus.no)
    ∧ (∀ (ts pref valid : Nat) (pa : Option Nat) (body : Option (Option Ip6)) lease,
        parseAddrAddrLine ts pref valid pa body = some lease →
          lease.tentative = AddrStatus.unknown)
    ∧ (∀ (ts pref valid : Nat) (la : Option Nat) (body : Option (Option Ip6)) lease,
        parseAddrPrefixLine ts pref valid la body = some lease →
          lease.tentative = AddrStatus.unknown) := by
  refine ⟨?_, ?_, ?_, ?_⟩
  · exact parseAddrIAaux_inv va t1 t2 iaid ifn ifi now lA none
      (fun ia0 h0 => by cases h0) ia hIA
  · exact parseAddrPDaux_inv vp t1 t2 iaid ifn ifi now lP none
      (fun pd0 h0 => by cases h0) pd hPD
  · intro ts pref valid pa body lease hl
    rcases body with _ | body2
    · exact absurd hl (by simp [parseAddrAddrLine])
    · rcases body2 with _ | a
      · exact absurd hl (by simp [parseAddrAddrLine])
      · simp only [parseAddrAddrLine] at hl
        by_cases hcond : ts ≠ 0 ∧ pref ≠ 0 ∧ valid ≠ 0
        · rw [if_pos hcond] at hl
          simp only [Option.some.injEq] at hl
          subst hl
          rfl
        · rw [if_neg hcond] at hl
          exact absurd hl (by simp)
  · intro ts pref valid la body lease hl
    rcases body with _ | body2
    · exact absurd hl (by simp [parseAddrPrefixLine])
    · rcases body2 with _ | a
      · exact absurd hl (by simp [parseAddrPrefixLine])
      · simp only [parseAddrPrefixLine] at hl
        by_cases hcond : ts ≠ 0 ∧ pref ≠ 0 ∧ valid ≠ 0
        · rw [if_pos hcond] at hl
          simp only [Option.some.injEq] at hl
          subst hl
          rfl
        · rw [if_neg hcond] at hl
          exact absurd hl (by simp)

/-- Witness for the amended C4: a concrete IA block and a concrete PD block
parse to assignments with the stated states and non-tentative leases. -/
theorem snapshot_load_states_witness :
    ((parseAddrIAaux (fun _ => true) 1 2 3 "eth0" 4 0 none
        [XLine.duidLine [1], XLine.addrAddrLine 1 2 3 (some 64) (some (some 9)),
         XLine.addrIAClose]).1.map (fun ia => ia.state))
      = some IAState.notConfigured := by
  rcases hIA : (parseAddrIAaux (fun _ => true) 1 2 3 "eth0" 4 0 none
      [XLine.duidLine [1], XLine.addrAddrLine 1 2 3 (some 64) (some (some 9)),
       XLine.addrIAClose]).1 with _ | ia
  · exact absurd hIA (by decide)
  · have h := snapshot_load_states (fun _ => true) (fun _ => true) 1 2 3 "eth0" 4 0
      [XLine.duidLine [1], XLine.addrAddrLine 1 2 3 (some 64) (some (some 9)),
       XLine.addrIAClose]
      [XLine.duidLine [1], XLine.addrPDClose] ia
      { mkIA "eth0" 4 .pd [1] 1 2 3 0 with state := .confirmMe }
      hIA (by decide)
    show some ia.state = some IAState.notConfigured
    rw [h.1.1]

/-- Counterexample for C4 as stated: a full snapshot load that retains an IA
(one valid address lease) leaves that IA in state `not-configured`, not
`confirm-me` as the claim asserts for every assignment. -/
theorem snapshot_ia_confirmme_false :
    (((xmlLoadBuiltIn (fun _ => true) (fun _ => true) 0 mgrEmpty
        [XLine.addrMgrOpen, XLine.addrClientOpen, XLine.duidLine [1],
         XLine.addrIAOpen 1 2 3 "eth0" 4, XLine.duidLine [1],
         XLine.addrAddrLine 1 2 3 (some 64) (some (some 9)), XLine.addrIAClose,
         XLine.addrClientClose, XLine.addrMgrClose]).2.clients.map
        (fun c => c.ias.map (fun ia => ia.state)))
      = [[IAState.notConfigured]])
    ∧ IAState.notConfigured ≠ IAState.confirmMe := by
  constructor
  · rfl
  · decide

/-! ## Claim C6 — a lease line is discarded exactly on the stated conditions -/

/-- C6: a lease line produces a lease exactly when its `timestamp`, `pref`
and `valid` attributes are all non-zero and the element body parsed to an
address (the `atoi` of a missing or unparseable attribute is 0, and an
absent `>` or a failed address parse leaves no address); the reader step then
adds the lease to the current assignment exactly when additionally the
verification hook (`verifyAddr` for addresses, `verifyPrefix` for prefixes)
accepts the address, and drops it otherwise. -/
theorem lease_discard_rules (va vp : Ip6 → Bool) (t1 t2 iaid : Nat)
    (ifn : String) (ifi now : Nat) (ia pd : TAddrIA) (ts pref valid : Nat)
    (pa la : Option Nat) (body : Option (Option Ip6)) :
    ((parseAddrAddrLine ts pref valid pa body).isSome = true
      ↔ ts ≠ 0 ∧ pref ≠ 0 ∧ valid ≠ 0 ∧ ∃ a, body = some (some a))
    ∧ ((parseAddrPrefixLine ts pref valid la body).isSome = true
      ↔ ts ≠ 0 ∧ pref ≠ 0 ∧ valid ≠ 0 ∧ ∃ a, body = some (some a))
    ∧ (∀ a, body = some (some a) →
        stepIA va t1 t2 iaid ifn ifi now (some ia) (.addrAddrLine ts pref valid pa body)
          = some (if ts ≠ 0 ∧ pref ≠ 0 ∧ valid ≠ 0 ∧ va a = true
              then { ia with addrs := ia.addrs ++
                [{ addr := a, pref := pref, valid := valid,
                   len := pa.getD CLIENT_DEFAULT_PREFIX_LENGTH, timestamp := ts,
                   tentative := AddrStatus.no }] }
              else ia))
    ∧ (body = none ∨ body = some none →
        stepIA va t1 t2 iaid ifn ifi now (some ia) (.addrAddrLine ts pref valid pa body)
          = some ia)
    ∧ (∀ a, body = some (some a) →
        stepPD vp t1 t2 iaid ifn ifi now (some pd) (.addrPrefixLine ts pref valid la body)
          = some (if ts ≠ 0 ∧ pref ≠ 0 ∧ valid ≠ 0 ∧ vp a = true
              then { pd with prefixes := pd.prefixes ++
                [{ addr := a, pref := pref, valid := valid, len := la.getD 0,
                   timestamp := ts, tentative := AddrStatus.no }] }
              else pd))
    ∧ (body = none ∨ body = some none →
        stepPD vp t1 t2 iaid ifn ifi now (some pd) (.addrPrefixLine ts pref valid la body)
          = some pd) := by
  refine ⟨?_, ?_, ?_, ?_, ?_, ?_⟩
  · rcases body with _ | body2
    · simp [parseAddrAddrLine]
    · rcases body2 with _ | a
      · simp [parseAddrAddrLine]
      · simp only [parseAddrAddrLine]
        by_cases hcond : ts ≠ 0 ∧ pref ≠ 0 ∧ valid ≠ 0
        · rw [if_pos hcond]
          simp [hcond.1, hcond.2.1, hcond.2.2]
        · rw [if_neg hcond]
          simp only [Option.isSome_none, Bool.false_eq_true, false_iff]
          intro hcontra
          exact hcond ⟨hcontra.1, hcontra.2.1, hcontra.2.2.1⟩
  · rcases body with _ | body2
    · simp [parseAddrPrefixLine]
    · rcases body2 with _ | a
      · simp [parseAddrPrefixLine]
      · simp only [parseAddrPrefixLine]
        by_cases hcond : ts ≠ 0 ∧ pref ≠ 0 ∧ valid ≠ 0
        · rw [if_pos hcond]
          simp [hcond.1, hcond.2.1, hcond.2.2]
        · rw [if_neg hcond]
          simp only [Option.isSome_none, Bool.false_eq_true, false_iff]
          intro hcontra
          exact hcond ⟨hcontra.1, hcontra.2.1, hcontra.2.2.1⟩
  · intro a hbody
    subst hbody
    simp only [stepIA, parseAddrAddrLine]
    by_cases hcond : ts ≠ 0 ∧ pref ≠ 0 ∧ valid ≠ 0
    · rw [if_pos hcond]
      dsimp only
      by_cases hv : va a = true
      · rw [if_pos hv, if_pos ⟨hcond.1, hcond.2.1, hcond.2.2, hv⟩]
      · rw [if_neg hv, if_neg (fun hc => hv hc.2.2.2)]
    · rw [if_neg hcond]
      dsimp only
      rw [if_neg (fun hc => hcond ⟨hc.1, hc.2.1, hc.2.2.1⟩)]
  · intro hbody
    rcases hbody with hbody | hbody <;> subst hbody <;>
      simp [stepIA, parseAddrAddrLine]
  · intro a hbody
    subst hbody
    simp only [stepPD, parseAddrPrefixLine]
    by_cases hcond : ts ≠ 0 ∧ pref ≠ 0 ∧ valid ≠ 0
    · rw [if_pos hcond]
      dsimp only
      by_cases hv : vp a = true
      · rw [if_pos hv, if_pos ⟨hcond.1, hcond.2.1, hcond.2.2, hv⟩]
      · rw [if_neg hv, if_neg (fun hc => hv hc.2.2.2)]
    · rw [if_neg hcond]
      dsimp only
      rw [if_neg (fun hc => hcond ⟨hc.1, hc.2.1, hc.2.2.1⟩)]
  · intro hbody
    rcases hbody with hbody | hbody <;> subst hbody <;>
      simp [stepPD, parseAddrPrefixLine]

/-- Witness for C6: at a concrete line with non-zero attributes, a parsing
body and an accepting hook, the step adds the lease; with a zero `pref` the
lease parser yields nothing. -/
theorem lease_discard_rules_witness :
    stepIA (fun _ => true) 1 2 3 "eth0" 4 0
        (some (mkIA "eth0" 4 .ia [1] 1 2 3 0))
        (.addrAddrLine 5 6 7 (some 64) (some (some 9)))
      = some { mkIA "eth0" 4 .ia [1] 1 2 3 0 with
          addrs := [{ addr := 9, pref := 6, valid := 7, len := 64, timestamp := 5,
                      tentative := AddrStatus.no }] }
    ∧ (parseAddrAddrLine 5 0 7 (some 64) (some (some 9))).isSome = false := by
  have h := lease_discard_rules (fun _ => true) (fun _ => true) 1 2 3 "eth0" 4 0
    (mkIA "eth0" 4 .ia [1] 1 2 3 0) (mkIA "eth0" 4 .pd [1] 1 2 3 0)
    5 6 7 (some 64) (some 0) (some (some 9))
  constructor
  · have h2 := h.2.2.1 9 rfl
    rw [h2]
    rw [if_pos (by refine ⟨by decide, by decide, by decide, rfl⟩)]
    rfl
  · decide

/-! ## Claim C3 — replay counter monotonicity across dump and load -/

theorem replayIter_value (m : TAddrMgr) :
    ∀ k : Nat, m.replayDetectionValue + k < 2 ^ 64 →
      (replayIter m k).replayDetectionValue = m.replayDetectionValue + k := by
  intro k
  induction k with
  | zero => intro _; rfl
  | succ n ih =>
    intro h
    have hn : m.replayDetectionValue + n < 2 ^ 64 := by omega
    show ((replayIter m n).replayDetectionValue + 1) % 2 ^ 64 = _
    rw [ih hn, Nat.mod_eq_of_lt (by omega)]
    omega

theorem appendClient_replay (m : TAddrMgr) (cur : Option TAddrClient) :
    (appendClient m cur).replayDetectionValue = m.replayDetectionValue := by
  rcases cur with _ | c
  · rfl
  · unfold appendClient
    dsimp only
    split <;> rfl

theorem xmlLoadAux_replay (va vp : Ip6 → Bool) (now : Nat) :
    ∀ (l : List XLine) (tag : Bool) (mode : LoadMode) (m : TAddrMgr),
      (∀ v, XLine.replayDetection v ∉ l) →
      (xmlLoadAux va vp now tag mode m l).2.replayDetectionValue
        = m.replayDetectionValue := by
  intro l
  induction l with
  | nil =>
    intro tag mode m _
    cases mode with
    | top lc => rfl
    | client cur => rfl
    | inIA t1 t2 iaid ifn ifi cur st => exact appendClient_replay m cur
    | inPD t1 t2 iaid ifn ifi cur st => exact appendClient_replay m cur
    | inTA cur => exact appendClient_replay m cur
  | cons x rest ih =>
    intro tag mode m h
    have hrest : ∀ v, XLine.replayDetection v ∉ rest := by
      intro v hv
      exact h v (List.mem_cons_of_mem x hv)
    cases mode with
    | top lc =>
      cases x
      case replayDetection v => exact absurd (List.mem_cons_self _ _) (h v)
      case addrMgrClose => rfl
      case addrClientOpen =>
        cases tag
        · exact ih false (.top lc) m hrest
        · exact ih true (.client none) m hrest
      all_goals exact ih _ _ m hrest
    | client cur =>
      cases x
      case addrClientClose =>
        exact (ih tag (.top cur) (appendClient m cur) hrest).trans
          (appendClient_replay m cur)
      all_goals exact ih _ _ m hrest
    | inIA t1 t2 iaid ifn ifi cur st =>
      cases x
      all_goals exact ih _ _ m hrest
    | inPD t1 t2 iaid ifn ifi cur st =>
      cases x
      all_goals exact ih _ _ m hrest
    | inTA cur =>
      cases x
      all_goals exact ih _ _ m hrest

theorem replay_not_mem_clientLines (c : TAddrClient) (v : Nat) :
    XLine.replayDetection v ∉ clientLines c := by
  simp [clientLines, iaBlockLines, pdBlockLines, taBlockLines, leaseAddrLine,
    leasePrefixLine]

theorem xmlLoad_dump_replay (va vp : Ip6 → Bool) (dumpNow loadNow : Nat)
    (M m0 : TAddrMgr) :
    (xmlLoadBuiltIn va vp loadNow m0 (dumpLines M dumpNow)).2.replayDetectionValue
      = M.replayDetectionValue := by
  show (xmlLoadAux va vp loadNow true (.top none)
      { m0 with replayDetectionValue := M.replayDetectionValue }
      ((M.clients.map clientLines).flatten ++ [XLine.addrMgrClose])).2.replayDetectionValue
    = M.replayDetectionValue
  rw [xmlLoadAux_replay va vp loadNow _ true (.top none) _ ?_]
  intro v hv
  rcases List.mem_append.mp hv with hv | hv
  · rcases List.mem_flatten.mp hv with ⟨ls, hls, hmem⟩
    rcases List.mem_map.mp hls with ⟨c, _, rfl⟩
    exact replay_not_mem_clientLines c v hmem
  · simp at hv

/-- C3 (amended): as long as the 64-bit counter does not wrap (the increment
is a `uint64_t` pre-increment, so the property as stated fails at
2^64 - 1), N successive `getNextReplayDetectionValue` calls return
v+1, …, v+N; the counter value is written verbatim by the dump and restored
verbatim by the load, so the first call after a dump/load round trip returns
v+N+1. -/
theorem replay_monotonic (m : TAddrMgr) (N : Nat)
    (h : m.replayDetectionValue + N + 1 < 2 ^ 64) :
    (∀ k, k < N → (getNextReplayDetectionValue (replayIter m k)).1
        = m.replayDetectionValue + k + 1)
    ∧ (∀ (va vp : Ip6 → Bool) (dumpNow loadNow : Nat) (m0 : TAddrMgr),
        (xmlLoadBuiltIn va vp loadNow m0
            (dumpLines (replayIter m N) dumpNow)).2.replayDetectionValue
          = m.replayDetectionValue + N
        ∧ (getNextReplayDetectionValue
            (xmlLoadBuiltIn va vp loadNow m0
              (dumpLines (replayIter m N) dumpNow)).2).1
          = m.replayDetectionValue + N + 1) := by
  constructor
  · intro k hk
    have hk2 : m.replayDetectionValue + k < 2 ^ 64 := by omega
    show ((replayIter m k).replayDetectionValue + 1) % 2 ^ 64 = _
    rw [replayIter_value m k hk2, Nat.mod_eq_of_lt (by omega)]
  · intro va vp dumpNow loadNow m0
    have hN : m.replayDetectionValue + N < 2 ^ 64 := by omega
    have h1 := xmlLoad_dump_replay va vp dumpNow loadNow (replayIter m N) m0
    rw [replayIter_value m N hN] at h1
    refine ⟨h1, ?_⟩
    show ((xmlLoadBuiltIn va vp loadNow m0
        (dumpLines (replayIter m N) dumpNow)).2.replayDetectionValue + 1) % 2 ^ 64 = _
    rw [h1, Nat.mod_eq_of_lt (by omega)]

/-- Witness for the amended C3: starting from counter 0, the third call
returns 3, and after dump/load of the state reached by three calls the
counter is 3 and the next call returns 4. -/
theorem replay_monotonic_witness :
    (getNextReplayDetectionValue (replayIter mgrEmpty 2)).1 = 3
    ∧ (xmlLoadBuiltIn (fun _ => true) (fun _ => true) 0 mgrEmpty
        (dumpLines (replayIter mgrEmpty 3) 7)).2.replayDetectionValue = 3
    ∧ (getNextReplayDetectionValue
        (xmlLoadBuiltIn (fun _ => true) (fun _ => true) 0 mgrEmpty
          (dumpLines (replayIter mgrEmpty 3) 7)).2).1 = 4 := by
  have h := replay_monotonic mgrEmpty 3 (by decide)
  have h2 := h.2 (fun _ => true) (fun _ => true) 7 0 mgrEmpty
  exact ⟨h.1 2 (by decide), h2.1, h2.2⟩

/-- Counterexample for C3 as stated: at counter value 2^64 - 1 the uint64
pre-increment wraps, and the call returns 0 instead of the claimed v + 1. -/
theorem replay_wrap_claim_false :
    (getNextReplayDetectionValue
        { clients := [], replayDetectionValue := 2 ^ 64 - 1,
          deleteEmptyClient := true }).1 = 0
    ∧ (0 : Nat) ≠ (2 ^ 64 - 1) + 1 := by
  constructor
  · show ((2 ^ 64 - 1) + 1) % 2 ^ 64 = 0
    decide
  · decide

/-! ## Claim C10 — what makes xmlLoadBuiltIn return true -/

/-- The client accumulator carried by a reader mode. -/
def modeClient : LoadMode → Option TAddrClient
  | .top lc => lc
  | .client cur => cur
  | .inIA _ _ _ _ _ cur _ => cur
  | .inPD _ _ _ _ _ cur _ => cur
  | .inTA cur => cur

theorem closeIA_isSome (cur : Option TAddrClient) (st : Option TAddrIA)
    (h : (closeIA cur st).isSome = true) : cur.isSome = true := by
  unfold closeIA at h
  rcases st with _ | ia
  · exact h
  · rcases cur with _ | c
    · exact h
    · rfl

theorem closePD_isSome (cur : Option TAddrClient) (st : Option TAddrIA)
    (h : (closePD cur st).isSome = true) : cur.isSome = true := by
  unfold closePD at h
  rcases st with _ | pd
  · exact h
  · rcases cur with _ | c
    · exact h
    · rfl

theorem xmlLoadAux_true_client (va vp : Ip6 → Bool) (now : Nat) :
    ∀ (l : List XLine) (tag : Bool) (mode : LoadMode) (m : TAddrMgr),
      (xmlLoadAux va vp now tag mode m l).1 = true →
      (modeClient mode).isSome = true ∨ ∃ d, XLine.duidLine d ∈ l := by
  intro l
  induction l with
  | nil =>
    intro tag mode m h
    left
    cases mode with
    | top lc => exact absurd h (by simp [xmlLoadAux])
    | client cur => exact absurd h (by simp [xmlLoadAux])
    | inIA t1 t2 iaid ifn ifi cur st => exact h
    | inPD t1 t2 iaid ifn ifi cur st => exact h
    | inTA cur => exact h
  | cons x rest ih =>
    intro tag mode m h
    cases mode with
    | top lc =>
      cases x
      case addrMgrClose => exact Or.inl h
      case addrClientOpen =>
        cases tag
        · exact (ih false (.top lc) m h).imp id
            (fun hr => ⟨hr.choose, List.mem_cons_of_mem _ hr.choose_spec⟩)
        · rcases ih true (.client none) m h with hl | hr
          · exact absurd hl (by simp [modeClient])
          · exact Or.inr ⟨hr.choose, List.mem_cons_of_mem _ hr.choose_spec⟩
      all_goals
        exact (ih _ _ _ h).imp id
          (fun hr => ⟨hr.choose, List.mem_cons_of_mem _ hr.choose_spec⟩)
    | client cur =>
      cases x
      case duidLine d => exact Or.inr ⟨d, List.mem_cons_self _ _⟩
      all_goals
        exact (ih _ _ _ h).imp id
          (fun hr => ⟨hr.choose, List.mem_cons_of_mem _ hr.choose_spec⟩)
    | inIA t1 t2 iaid ifn ifi cur st =>
      cases x
      case addrIAClose =>
        exact (ih _ _ _ h).imp (closeIA_isSome cur st)
          (fun hr => ⟨hr.choose, List.mem_cons_of_mem _ hr.choose_spec⟩)
      all_goals
        exact (ih _ _ _ h).imp id
          (fun hr => ⟨hr.choose, List.mem_cons_of_mem _ hr.choose_spec⟩)
    | inPD t1 t2 iaid ifn ifi cur st =>
      cases x
      case addrPDClose =>
        exact (ih _ _ _ h).imp (closePD_isSome cur st)
          (fun hr => ⟨hr.choose, List.mem_cons_of_mem _ hr.choose_spec⟩)
      all_goals
        exact (ih _ _ _ h).imp id
          (fun hr => ⟨hr.choose, List.mem_cons_of_mem _ hr.choose_spec⟩)
    | inTA cur =>
      cases x
      all_goals
        exact (ih _ _ _ h).imp id
          (fun hr => ⟨hr.choose, List.mem_cons_of_mem _ hr.choose_spec⟩)

theorem xmlLoadAux_top_no_client (va vp : Ip6 → Bool) (now : Nat) :
    ∀ (l : List XLine) (tag : Bool) (m : TAddrMgr),
      (∀ x ∈ l, x ≠ XLine.addrClientOpen) →
      (xmlLoadAux va vp now tag (.top none) m l).1 = false
      ∧ (xmlLoadAux va vp now tag (.top none) m l).2.clients = m.clients := by
  intro l
  induction l with
  | nil => intro tag m _; exact ⟨rfl, rfl⟩
  | cons x rest ih =>
    intro tag m h
    have hrest : ∀ y ∈ rest, y ≠ XLine.addrClientOpen := by
      intro y hy
      exact h y (List.mem_cons_of_mem x hy)
    cases x
    case addrClientOpen => exact absurd rfl (h _ (List.mem_cons_self _ _))
    case addrMgrClose => exact ⟨rfl, rfl⟩
    case replayDetection v => exact ih tag { m with replayDetectionValue := v } hrest
    all_goals exact ih _ m hrest

/-- C10 (amended): `xmlLoadBuiltIn` reports success only when a client object
was produced by a `parseAddrClient` call, which requires a `<duid>` line; a
snapshot with no `<AddrClient>` block at all returns false and leaves the
client list untouched, the same result as an empty (truncated) input.  A
client block whose parsed assignments are all empty is `not` retained in the
store but still counts as a produced client, so such a load returns true
(this is where the claim as stated fails). -/
theorem xmlLoad_success_shape (va vp : Ip6 → Bool) (now : Nat) (m : TAddrMgr)
    (lines : List XLine) :
    ((xmlLoadBuiltIn va vp now m lines).1 = true → ∃ d, XLine.duidLine d ∈ lines)
    ∧ ((∀ x ∈ lines, x ≠ XLine.addrClientOpen) →
        (xmlLoadBuiltIn va vp now m lines).1 = false
        ∧ (xmlLoadBuiltIn va vp now m lines).2.clients = m.clients)
    ∧ (xmlLoadBuiltIn va vp now m []).1 = false := by
  refine ⟨?_, ?_, rfl⟩
  · intro h
    rcases xmlLoadAux_true_client va vp now lines false (.top none) m h with hl | hr
    · exact absurd hl (by simp [modeClient])
    · exact hr
  · intro h
    exact xmlLoadAux_top_no_client va vp now lines false m h

/-- Witness for the amended C10: a load that returns true contains a duid
line, and a snapshot with no client block returns false with the store
unchanged. -/
theorem xmlLoad_success_shape_witness :
    (∃ d, XLine.duidLine d ∈
      [XLine.addrMgrOpen, XLine.addrClientOpen, XLine.duidLine [1],
       XLine.addrPDOpen 1 2 3 "eth0" 4, XLine.duidLine [1], XLine.addrPDClose,
       XLine.addrClientClose, XLine.addrMgrClose])
    ∧ (xmlLoadBuiltIn (fun _ => true) (fun _ => true) 0 mgrEmpty
        [XLine.addrMgrOpen, XLine.timestampTag 5, XLine.addrMgrClose]).1 = false := by
  constructor
  · exact (xmlLoad_success_shape (fun _ => true) (fun _ => true) 0 mgrEmpty
      [XLine.addrMgrOpen, XLine.addrClientOpen, XLine.duidLine [1],
       XLine.addrPDOpen 1 2 3 "eth0" 4, XLine.duidLine [1], XLine.addrPDClose,
       XLine.addrClientClose, XLine.addrMgrClose]).1 (by decide)
  · exact ((xmlLoad_success_shape (fun _ => true) (fun _ => true) 0 mgrEmpty
      [XLine.addrMgrOpen, XLine.timestampTag 5, XLine.addrMgrClose]).2.1
      (by decide)).1

/-- Counterexample for C10 as stated: a well-formed snapshot whose only
client ends up empty (its PD block has no valid prefix) retains no client —
yet the load returns true, where the claim requires false. -/
theorem xmlLoad_emptyclient_true :
    ((xmlLoadBuiltIn (fun _ => true) (fun _ => true) 0 mgrEmpty
        [XLine.addrMgrOpen, XLine.addrClientOpen, XLine.duidLine [1],
         XLine.addrPDOpen 1 2 3 "eth0" 4, XLine.duidLine [1], XLine.addrPDClose,
         XLine.addrClientClose, XLine.addrMgrClose]).1 = true)
    ∧ ((xmlLoadBuiltIn (fun _ => true) (fun _ => true) 0 mgrEmpty
        [XLine.addrMgrOpen, XLine.addrClientOpen, XLine.duidLine [1],
         XLine.addrPDOpen 1 2 3 "eth0" 4, XLine.duidLine [1], XLine.addrPDClose,
         XLine.addrClientClose, XLine.addrMgrClose]).2.clients = []) :=
  ⟨rfl, rfl⟩

end AddrMgrModel
